import Mathlib

/-!
Verification of the voxel-world simulation core (game_map.py, entity.py,
tile_types.py, components/environment_effect.py).

The Python code is shallowly embedded: the mutable numpy arrays become total
functions from integer coordinates, Python dicts and sets become association
lists with dict/set semantics, and methods that mutate the map become
functions from the map state to a new map state.  Python `int()` applied to a
non-negative quantity is the floor; the float fields `spread_decay` are
modelled as rationals.  Operations that can raise in Python return `Option`
or `Except`.
-/

set_option maxRecDepth 4000

namespace DfsRpg

/-- Tile kinds from tile_types.TileType. -/
inductive TileType where
  | empty
  | floor
  | wall
  | door
  | downStairs
  | upStairs
deriving DecidableEq, Repr

open TileType

/-- A voxel coordinate (z, x, y), as in game_map.py. -/
abbrev Coord := Int × Int × Int

/-- Point update of a coordinate-indexed array (numpy cell assignment). -/
def updC {α : Type} (f : Coord → α) (c : Coord) (v : α) : Coord → α :=
  fun c' => if c' = c then v else f c'

/-- Point update of an (x, y)-indexed array. -/
def updXY {α : Type} (f : Int × Int → α) (c : Int × Int) (v : α) : Int × Int → α :=
  fun c' => if c' = c then v else f c'

/-- The sparse justification graph cavein_dep_graph: a Python dict mapping a
voxel to a Python set of voxels, as an association list whose values are
duplicate-free lists. -/
abbrev DepGraph := List (Coord × List Coord)

/-- Dict lookup: cavein_dep_graph[c] if present. -/
def dgFind (dg : DepGraph) (c : Coord) : Option (List Coord) :=
  (dg.find? fun e => decide (e.1 = c)).map (·.2)

/-- Dict write cavein_dep_graph[c] = vs (replace or append the entry). -/
def dgSet (dg : DepGraph) (c : Coord) (vs : List Coord) : DepGraph :=
  if (dgFind dg c).isSome then
    dg.map fun e => if e.1 = c then (c, vs) else e
  else
    dg ++ [(c, vs)]

/-- Set insertion cavein_dep_graph[c].add(v); the code always checks that the
key is present before calling add, so a missing key is left untouched. -/
def dgAdd (dg : DepGraph) (c : Coord) (v : Coord) : DepGraph :=
  dg.map fun e => if e.1 = c then (e.1, if v ∈ e.2 then e.2 else e.2 ++ [v]) else e

/-- Dict deletion del cavein_dep_graph[c]. -/
def dgErase (dg : DepGraph) (c : Coord) : DepGraph :=
  dg.filter fun e => decide (e.1 ≠ c)

/-- An actor as far as the collapse-damage pass reads and writes it:
position, fighter.hp and fighter.defense (entity.py Actor / Fighter). -/
structure ActorRec where
  z : Int
  x : Int
  y : Int
  hp : Int
  defense : Int
deriving DecidableEq, Repr

/-- The GameMap state (game_map.py __init__).  tiles holds the per-voxel tile
record; of its fields we keep the tile type and the mutable per-voxel
transparent flag (the only tile fields the embedded operations read or
write besides hp, which none of the verified claims depend on).  actors
stands for the Actor members of self.entities, and log for the engine's
message_log that apply_cavein_dmg appends to. -/
@[ext]
structure GameMap where
  depth : Int
  width : Int
  height : Int
  tiles : Coord → TileType
  transparent : Coord → Bool
  cavein : Coord → Option Bool
  caveinDepGraph : DepGraph
  outside : Int × Int → Int
  light : Fin 5 → Coord → Bool
  lightFov : List (Coord × Int)
  fireOrigLight : List (Coord × Option Int)
  onFire : Coord → Bool
  actors : List ActorRec
  log : List String

namespace GameMap

/-- GameMap.in_bounds_x. -/
def in_bounds_x (g : GameMap) (x : Int) : Prop :=
  0 ≤ x ∧ x < g.width

/-- GameMap.in_bounds_y. -/
def in_bounds_y (g : GameMap) (y : Int) : Prop :=
  0 ≤ y ∧ y < g.height

/-- GameMap.in_bounds_z. -/
def in_bounds_z (g : GameMap) (z : Int) : Prop :=
  0 ≤ z ∧ z < g.depth

/-- GameMap.in_bounds_no_z. -/
def in_bounds_no_z (g : GameMap) (x y : Int) : Prop :=
  g.in_bounds_x x ∧ g.in_bounds_y y

/-- GameMap.in_bounds. -/
def in_bounds (g : GameMap) (z x y : Int) : Prop :=
  g.in_bounds_z z ∧ g.in_bounds_x x ∧ g.in_bounds_y y

instance (g : GameMap) (x : Int) : Decidable (g.in_bounds_x x) :=
  inferInstanceAs (Decidable (_ ∧ _))

instance (g : GameMap) (y : Int) : Decidable (g.in_bounds_y y) :=
  inferInstanceAs (Decidable (_ ∧ _))

instance (g : GameMap) (z : Int) : Decidable (g.in_bounds_z z) :=
  inferInstanceAs (Decidable (_ ∧ _))

instance (g : GameMap) (x y : Int) : Decidable (g.in_bounds_no_z x y) :=
  inferInstanceAs (Decidable (_ ∧ _))

instance (g : GameMap) (z x y : Int) : Decidable (g.in_bounds z x y) :=
  inferInstanceAs (Decidable (_ ∧ _))

/-- GameMap.is_edge_tile. -/
def is_edge_tile (g : GameMap) (z x y : Int) : Prop :=
  z = 0 ∨ z = g.depth - 1 ∨ x = 0 ∨ x = g.width - 1 ∨ y = 0 ∨ y = g.height - 1

instance (g : GameMap) (z x y : Int) : Decidable (g.is_edge_tile z x y) := by
  unfold is_edge_tile; infer_instance

/-- Numpy index semantics for one axis: a negative index wraps once from the
end of the axis.  get_cavein_dmg_tiles can call set_light_tile with z = -1,
which numpy resolves to depth - 1. -/
def npIdx (size : Int) (i : Int) : Int :=
  if i < 0 then size + i else i

/-- The wrapped coordinate a numpy write light_matrix[z, x, y] lands on. -/
def npCoord (g : GameMap) (z x y : Int) : Coord :=
  (npIdx g.depth z, npIdx g.width x, npIdx g.height y)

/-- GameMap.set_light_tile: for each of the five planes, plane i becomes True
at the voxel iff i equals the requested level (and other voxels keep their
values). -/
def set_light_tile (g : GameMap) (z x y : Int) (level : Int) : GameMap :=
  { g with light := fun i => updC (g.light i) (g.npCoord z x y) (decide ((i.val : Int) = level)) }

/-- GameMap.get_light_tile: None when out of bounds; otherwise the first plane
index whose plane is True at the voxel, None when no plane is True (in
Python the loop falls through and the method implicitly returns None). -/
def get_light_tile (g : GameMap) (z x y : Int) : Option Int :=
  if g.in_bounds z x y then
    ((List.finRange 5).find? fun i => g.light i (z, x, y)).map fun i => (i.val : Int)
  else
    none

/-- The light set-up of GameMap.__init__: plane 0 all True, planes 1-4 all
False. -/
def initLight : Fin 5 → Coord → Bool :=
  fun i _ => decide (i.val = 0)

/-- Exactly one of the five light planes is True at the voxel (the one-hot
invariant of the spec). -/
def OneHotAt (g : GameMap) (c : Coord) : Prop :=
  ∃! i : Fin 5, g.light i c = true

instance (g : GameMap) (c : Coord) : Decidable (g.OneHotAt c) := by
  unfold OneHotAt ExistsUnique; infer_instance

/-- The light-plane overlay at the end of GameMap.update_tiles (lines
182-186): np.place sets plane 4 to True and planes 3,2,1,0 to False at every
on-fire voxel. -/
def update_tiles_fire_overlay (g : GameMap) : GameMap :=
  { g with light := fun i c => if g.onFire c then decide (i.val = 4) else g.light i c }

/-- GameMap.remove_tile_check.  The method reads only the tile type and
mutates nothing; the returned map is the untouched input, and the Except
value is the raised exceptions.Impossible or the returned True. -/
def remove_tile_check (g : GameMap) (z x y : Int) : GameMap × Except String Bool :=
  if g.tiles (z, x, y) = TileType.empty then
    (g, Except.error "Cannot remove empty tile")
  else
    (g, Except.ok true)

/-- GameMap.get_neighbor_tiles: the up-to-eight in-plane neighbours, looping
i over x-1..x+1 (outer) and j over y-1..y+1 (inner), skipping the centre and
anything outside the x/y bounds. -/
def get_neighbor_tiles (g : GameMap) (z x y : Int) : List Coord :=
  [x - 1, x, x + 1].flatMap fun i =>
    [y - 1, y, y + 1].filterMap fun j =>
      if (¬(i = x ∧ j = y)) ∧ g.in_bounds_no_z i j then some (z, i, j) else none

/-- The loop of GameMap.get_light_tile as a plane index: the first of the
five planes that is True at the voxel, None out of bounds or when no plane
is True. -/
def light_index (g : GameMap) (c : Coord) : Option (Fin 5) :=
  if g.in_bounds c.1 c.2.1 c.2.2 then
    (List.finRange 5).find? fun i => g.light i c
  else
    none

/-- GameMap.diffuse_tile: count the neighbours at each light level, set this
voxel to int(sum((i+1)*count_i) / total) - 1.  None models the Python
errors: a neighbour whose light level is None (TypeError on list indexing),
or an empty neighbour list (ZeroDivisionError).  The division is on
non-negative ints, so Python's float-then-int truncation is Nat division. -/
def diffuse_tile (g : GameMap) (z x y : Int) : Option GameMap := do
  let neighbors := g.get_neighbor_tiles z x y
  let counts ← neighbors.foldlM
    (fun (cnt : Fin 5 → Nat) n => do
      let i ← g.light_index n
      pure fun i' => if i' = i then cnt i' + 1 else cnt i')
    (fun _ => 0)
  let prodSum := ∑ i : Fin 5, (i.val + 1) * counts i
  let total := ∑ i : Fin 5, counts i
  if total = 0 then none
  else some (g.set_light_tile z x y ((prodSum / total : Nat) - 1 : Int))

/-- Lookup in the sparse light_fov overlay dict. -/
def lookupFov (g : GameMap) (c : Coord) : Option Int :=
  (g.lightFov.find? fun e => decide (e.1 = c)).map (·.2)

/-- Lookup in the fire_orig_light dict; the stored snapshot is itself a
possibly-None light level, so the result is doubly optional. -/
def lookupFireOrig (g : GameMap) (c : Coord) : Option (Option Int) :=
  (g.fireOrigLight.find? fun e => decide (e.1 = c)).map (·.2)

end GameMap

/-- The mutable state of components.environment_effect.LowerVisibility. -/
structure LowerVisibility where
  per_density_amt : Int
  base_value : Option Int
  base_transparency : Option Bool
deriving DecidableEq, Repr

namespace LowerVisibility

/-- The base-value resolution at the top of LowerVisibility.activate (lines
37-43): re-read from light_fov when present, else the already-cached value,
else the fire snapshot when burning (None when the dict entry is missing,
i.e. KeyError), else the current light level. -/
def resolveBase (e : LowerVisibility) (g : GameMap) (z x y : Int) :
    Option (Option Int) :=
  match g.lookupFov (z, x, y) with
  | some v => some (some v)
  | none =>
    match e.base_value with
    | some b => some (some b)
    | none =>
      if g.onFire (z, x, y) then g.lookupFireOrig (z, x, y)
      else some (g.get_light_tile z x y)

/-- The base transparency caching of LowerVisibility.activate (lines 44-45):
kept when already cached, else read from the tile. -/
def resolveTransparency (e : LowerVisibility) (g : GameMap) (z x y : Int) : Bool :=
  match e.base_transparency with
  | some t => t
  | none => g.transparent (z, x, y)

/-- LowerVisibility.activate, with the parent particle's position and
density passed in.  None models the Python runtime errors: a missing
fire_orig_light entry (KeyError), a None base value reaching the numeric
comparison (TypeError), or per_density_amt = 0 (ZeroDivisionError).
int(density / per_density_amt) is float division truncated toward zero,
i.e. Int.tdiv. -/
def activate (e : LowerVisibility) (g : GameMap) (z x y density : Int) :
    Option (GameMap × LowerVisibility) := do
  let bv0 ← e.resolveBase g z x y
  let bt := e.resolveTransparency g z x y
  let bv ← bv0
  let clamped :=
    if g.outside (x, y) > z then (if bv > 3 then 3 else bv)
    else (if bv > 4 then 4 else bv)
  if e.per_density_amt = 0 then none
  else
    let lowerAmt := clamped - Int.tdiv density e.per_density_amt
    let la := if lowerAmt < 0 then 0 else lowerAmt
    let tr := if lowerAmt < 0 then false else bt
    let g1 := { g with transparent := updC g.transparent (z, x, y) tr }
    some (g1.set_light_tile z x y la,
      { e with base_value := some bv, base_transparency := some bt })

/-- The restore value of LowerVisibility.deactivate (lines 64-67): the
light_fov entry when present, else the cached base value. -/
def deactSource (e : LowerVisibility) (g : GameMap) (z x y : Int) : Option Int :=
  match g.lookupFov (z, x, y) with
  | some v => some v
  | none => e.base_value

/-- LowerVisibility.deactivate.  None models the TypeError of a None base
value in the comparison or a None base transparency written to the bool
array. -/
def deactivate (e : LowerVisibility) (g : GameMap) (z x y : Int) :
    Option GameMap := do
  let sv ← e.deactSource g z x y
  let sv1 :=
    if g.outside (x, y) > z then (if sv > 3 then 3 else sv)
    else (if sv > 4 then 4 else sv)
  let g1 := g.set_light_tile z x y sv1
  let bt ← e.base_transparency
  some { g1 with transparent := updC g1.transparent (z, x, y) bt }

end LowerVisibility

/-- Repeated calls of LowerVisibility.activate, threading the map and the
effect's cached state. -/
def activateIter (z x y density : Int) :
    Nat → GameMap × LowerVisibility → Option (GameMap × LowerVisibility)
  | 0, s => some s
  | n + 1, s => (s.2.activate s.1 z x y density).bind (activateIter z x y density n)

/-- The fields of entity.Particle that spread reads and writes. -/
structure Particle where
  z : Int
  x : Int
  y : Int
  particle_type : Nat
  spread_decay : ℚ
  spread_rate : Int
  spread_value : Int
  density : Int
  density_decay : Int
deriving DecidableEq, Repr

/-- The per-voxel particle index p_coord_dict built by
GameMap.particle_spread: coordinate to list of resident particles. -/
abbrev PDict := List (Coord × List Particle)

/-- Dict lookup p_coord_dict[c]. -/
def pdFind (d : PDict) (c : Coord) : Option (List Particle) :=
  (d.find? fun e => decide (e.1 = c)).map (·.2)

/-- Dict write p_coord_dict[c] = ps. -/
def pdSet (d : PDict) (c : Coord) (ps : List Particle) : PDict :=
  if (pdFind d c).isSome then
    d.map fun e => if e.1 = c then (c, ps) else e
  else
    d ++ [(c, ps)]

/-- Total density held in the dict. -/
def pdDensity (d : PDict) : Int :=
  (d.map fun e => (e.2.map Particle.density).sum).sum

namespace Particle

/-- Particle.spawn as invoked from spread: a deep copy placed at the target
voxel whose density is overridden when the passed density is non-zero
(Python truthiness).  The cloned effect's cached base_value reset is not
needed here: spread only accounts densities. -/
def spawnAt (p : Particle) (c : Coord) (density : Int) : Particle :=
  { p with z := c.1, x := c.2.1, y := c.2.2,
           density := if density ≠ 0 then density else p.density }

/-- The open-destination enumeration of Particle.spread (entity.py lines
294-306): in-plane neighbours that are not Wall/Door, then at most one
vertical target chosen by the if/elif priority rule. -/
def available_tiles (g : GameMap) (p : Particle) : List Coord :=
  let neighbors := g.get_neighbor_tiles p.z p.x p.y
  let avail := neighbors.filter fun n =>
    decide (g.tiles n ≠ TileType.wall ∧ g.tiles n ≠ TileType.door)
  if g.in_bounds_z (p.z - 1) ∧
      (g.tiles (p.z - 1, p.x, p.y) ≠ TileType.wall ∧
       g.tiles (p.z - 1, p.x, p.y) ≠ TileType.door) ∧
      (g.tiles (p.z, p.x, p.y) = TileType.empty ∨
       g.tiles (p.z, p.x, p.y) = TileType.downStairs) then
    avail ++ [(p.z - 1, p.x, p.y)]
  else if g.in_bounds_z (p.z + 1) ∧
      (g.tiles (p.z, p.x, p.y) ≠ TileType.wall ∧
       g.tiles (p.z, p.x, p.y) ≠ TileType.door) ∧
      (g.tiles (p.z + 1, p.x, p.y) = TileType.empty ∨
       g.tiles (p.z + 1, p.x, p.y) = TileType.downStairs) then
    avail ++ [(p.z + 1, p.x, p.y)]
  else avail

end Particle

/-- The inner for p_at_t loop of Particle.spread: walk the resident list for
the first particle of the same type; when found, add the share only if the
result stays under the spreading particle's (already reduced) density; in
either case stop there and report found. -/
def spreadIntoList (self : Particle) (per : Int) : List Particle → List Particle × Bool
  | [] => ([], false)
  | q :: rest =>
    if q.particle_type = self.particle_type then
      (if q.density + per < self.density then
        { q with density := q.density + per } :: rest
       else q :: rest, true)
    else
      let (rest', found) := spreadIntoList self per rest
      (q :: rest', found)

/-- The first same-type resident the loop of spreadIntoList will meet. -/
def firstSameType (pt : Nat) : List Particle → Option Particle
  | [] => none
  | q :: rest => if q.particle_type = pt then some q else firstSameType pt rest

/-- Outcome of Particle.spread. -/
inductive SpreadResult where
  | removed (dict : PDict)
  | ok (self : Particle) (dict : PDict)
  | failure
deriving DecidableEq, Repr

/-- Processing of one destination voxel inside the distribution loop of
Particle.spread. -/
def spreadStep (self : Particle) (per : Int) (d : PDict) (t : Coord) : PDict :=
  match pdFind d t with
  | some plist =>
    let (plist', found) := spreadIntoList self per plist
    if found then pdSet d t plist'
    else pdSet d t (plist' ++ [self.spawnAt t per])
  | none => d ++ [(t, [self.spawnAt t per])]

/-- Particle.spread (entity.py lines 279-328).  removed is the density <= 0
branch (the particle leaves the entity set and its effect is deactivated;
the effect side is not needed for density accounting).  failure is the
ZeroDivisionError when there is no available destination.  The two int()
truncations of float products are modelled as rational floors (densities
stay non-negative), and int(total / len) as Int.tdiv. -/
def Particle.spread (p0 : Particle) (g : GameMap) (dict : PDict) : SpreadResult :=
  let p := { p0 with density := p0.density - p0.density_decay }
  if p.density ≤ 0 then .removed dict
  else if p.spread_rate = 0 then .ok p dict
  else
    let p1 := { p with spread_value := p.spread_value + 1 }
    if p1.spread_value ≥ p1.spread_rate then
      let p2 := { p1 with spread_value := 0 }
      let avail := Particle.available_tiles g p2
      let total := ⌊(p2.density : ℚ) * p2.spread_decay⌋
      let p3 := { p2 with density := ⌊(p2.density : ℚ) * (1 - p2.spread_decay)⌋ }
      if avail.length = 0 then .failure
      else
        let per := Int.tdiv total (avail.length : Int)
        if per > 0 then .ok p3 (avail.foldl (spreadStep p3 per) dict)
        else .ok p3 dict
    else .ok p1 dict

/-! ### Claim C8: remove rejection, and C10: get_light_tile totality -/

/-- A small concrete map used to instantiate theorems with hypotheses: a
3 by 3 by 3 grid whose centre column holds a wall at the top, fresh light
planes as in GameMap.__init__. -/
def demoMap : GameMap :=
  { depth := 3
    width := 3
    height := 3
    tiles := fun c => if c = (2, 1, 1) then TileType.wall else TileType.empty
    transparent := fun c => c ≠ (2, 1, 1)
    cavein := fun _ => none
    caveinDepGraph := []
    outside := fun xy => if xy = (1, 1) then 2 else -1
    light := GameMap.initLight
    lightFov := []
    fireOrigLight := []
    onFire := fun _ => false
    actors := []
    log := [] }

/-- A concrete map for the spread scenario: a 3 by 5 by 5 grid, floor at the
centre (1,2,2) and its four orthogonal in-plane neighbours, wall everywhere
else (so the four diagonals are blocked, the voxel below is wall, and the
voxel above is wall). -/
def spreadMap : GameMap :=
  { depth := 3
    width := 5
    height := 5
    tiles := fun c =>
      if c = (1, 2, 2) ∨ c = (1, 1, 2) ∨ c = (1, 3, 2) ∨
         c = (1, 2, 1) ∨ c = (1, 2, 3) then TileType.floor
      else TileType.wall
    transparent := fun _ => false
    cavein := fun _ => none
    caveinDepGraph := []
    outside := fun _ => 2
    light := GameMap.initLight
    lightFov := []
    fireOrigLight := []
    onFire := fun _ => false
    actors := []
    log := [] }

/-- The scenario particle: density 1000, spread_decay 0.1, spread_rate 1,
density_decay 0, sitting at the centre of spreadMap. -/
def spreadP : Particle :=
  { z := 1, x := 2, y := 2, particle_type := 0, spread_decay := 1/10,
    spread_rate := 1, spread_value := 0, density := 1000, density_decay := 0 }

/-- cavein_dmg_mult (game_map.py line 25). -/
def cavein_dmg_mult : Int := 10

/-- fall_dmg_mult (game_map.py line 26). -/
def fall_dmg_mult : Int := 5

/-- The body of the downward while loop shared by outside_init and
get_cavein_dmg_tiles, indexed by the number of levels left to inspect. -/
def fallToZFuel (tiles : Coord → TileType) (x y : Int) : Nat → Int → Int
  | 0, cur => cur
  | fuel + 1, cur =>
    if 0 ≤ cur then
      if tiles (cur, x, y) ≠ TileType.empty then cur
      else fallToZFuel tiles x y fuel (cur - 1)
    else cur

/-- The downward while loop shared by outside_init and get_cavein_dmg_tiles:
from cur_z, walk down while the tile is Empty; the first non-Empty z, or -1
when the column is empty below.  The fuel (cur + 1).toNat is exactly the
number of levels the loop can inspect, so the recursion never exhausts. -/
def fallToZ (tiles : Coord → TileType) (x y : Int) (cur : Int) : Int :=
  fallToZFuel tiles x y (cur + 1).toNat cur

/-- Python range(0, n) as integers. -/
def intRange (n : Int) : List Int :=
  (List.range n.toNat).map fun k : Nat => (k : Int)

/-- Python range(a, b) as integers. -/
def intRangeFromTo (a b : Int) : List Int :=
  (List.range (b - a).toNat).map fun k : Nat => a + (k : Int)

/-- The triple loop order z, x, y of the grid scans. -/
def GameMap.allCoords (g : GameMap) : List Coord :=
  (intRange g.depth).flatMap fun z =>
    (intRange g.width).flatMap fun x =>
      (intRange g.height).map fun y => (z, x, y)

/-- The double loop order x, y over columns. -/
def GameMap.allColumns (g : GameMap) : List (Int × Int) :=
  (intRange g.width).flatMap fun x =>
    (intRange g.height).map fun y => (x, y)

/-- GameMap.outside_init: per column, scan from the top (depth - 1) down to
the first non-Empty voxel and record its z (or -1 when there is none). -/
def GameMap.outside_init (g : GameMap) : GameMap :=
  g.allColumns.foldl
    (fun g' xy =>
      { g' with
          outside := updXY g'.outside xy (fallToZ g'.tiles xy.1 xy.2 (g'.depth - 1)) })
    g

/-- dmg_tiles_d bump: dict[c] += 1 or dict[c] = 1. -/
def dmgBump (d : List (Coord × Int)) (c : Coord) : List (Coord × Int) :=
  if (d.find? fun e => decide (e.1 = c)).isSome then
    d.map fun e => if e.1 = c then (e.1, e.2 + 1) else e
  else d ++ [(c, 1)]

/-- Lookup in the damage/fall dicts. -/
def dmgFind (d : List (Coord × Int)) (c : Coord) : Option Int :=
  (d.find? fun e => decide (e.1 = c)).map (·.2)

/-- GameMap.get_cavein_dmg_tiles: scan all voxels in z, x, y order; every
voxel whose cavein flag is not True but whose tile is non-Empty collapses:
the tile becomes Empty, cavein becomes False, the nearest non-Empty voxel
below (in the already-mutated grid) receives a debris-count bump, the fall
dict records that landing z (possibly -1), and when the column exposure
pointed at this voxel it drops to the landing z while every newly exposed
level is lit at level 4 (including the z = -1 write that numpy wraps to the
top plane). -/
def caveinDmgStep (st : GameMap × List (Coord × Int) × List (Coord × Int))
    (c : Coord) : GameMap × List (Coord × Int) × List (Coord × Int) :=
  let (g', dmg, fall) := st
  if ¬ (g'.cavein c = some true) ∧ g'.tiles c ≠ TileType.empty then
    let g1 := { g' with tiles := updC g'.tiles c TileType.empty,
                        cavein := updC g'.cavein c (some false) }
    let curZ := fallToZ g1.tiles c.2.1 c.2.2 (c.1 - 1)
    let dmg' := if 0 ≤ curZ then dmgBump dmg (curZ, c.2.1, c.2.2) else dmg
    let fall' := fall ++ [(c, curZ)]
    if g1.outside (c.2.1, c.2.2) = c.1 then
      let g2 := { g1 with outside := updXY g1.outside (c.2.1, c.2.2) curZ }
      let g3 := (intRangeFromTo curZ c.1).foldl
        (fun gg k => gg.set_light_tile k c.2.1 c.2.2 4) g2
      (g3, dmg', fall')
    else (g1, dmg', fall')
  else st

def GameMap.get_cavein_dmg_tiles (g : GameMap) :
    GameMap × List (Coord × Int) × List (Coord × Int) :=
  g.allCoords.foldl caveinDmgStep (g, [], [])

/-- GameMap.apply_cavein_dmg: every living actor standing on a debris landing
tile takes debris damage (minus defense, with a no-damage message at <= 0);
otherwise an actor on a collapsed voxel falls to the recorded landing z and
takes fall_dmg_mult damage per level fallen, except that with no landing z
the code's del a statement only unbinds the loop variable, so the actor
stays in the entity set untouched. -/
def GameMap.apply_cavein_dmg (g : GameMap) (dmg fall : List (Coord × Int)) :
    GameMap :=
  let step := fun (st : List ActorRec × List String) (a : ActorRec) =>
    let (acc, log) := st
    match dmgFind dmg (a.z, a.x, a.y) with
    | some cnt =>
      let damage := cavein_dmg_mult * cnt - a.defense
      if damage > 0 then
        (acc ++ [{ a with hp := a.hp - damage }],
         log ++ [s!"Falling debris for {damage} hit points."])
      else
        (acc ++ [a], log ++ ["Falling debris but does no damage."])
    | none =>
      match dmgFind fall (a.z, a.x, a.y) with
      | some curZ =>
        if curZ ≥ 0 then
          let damage := fall_dmg_mult * (a.z - curZ)
          if damage > 0 then
            (acc ++ [{ a with z := curZ, hp := a.hp - damage }],
             log ++ [s!"Fallen for {damage} hit points."])
          else
            (acc ++ [{ a with z := curZ }],
             log ++ ["Fallen but does no damage."])
        else
          (acc ++ [a], log)
      | none => (acc ++ [a], log)
  let res := g.actors.foldl step ([], g.log)
  { g with actors := res.1, log := res.2 }

/-- One neighbour block of GameMap.get_cavein_neighbors: guarded by bounds,
cavein is-not-False, and the block's extra tile-type condition.  A True
neighbour may gain the current voxel as an extra justification (only when
both have dependency entries and the current voxel is not already justified
by the neighbour, or, for a non-edge True neighbour without an entry, a
fresh entry); a None neighbour outside q_set is collected for the queue. -/
def caveinNeighborVisit (qset : List Coord) (c n : Coord) (extra : Bool)
    (acc : GameMap × List Coord) : GameMap × List Coord :=
  let (g', ts) := acc
  if g'.in_bounds n.1 n.2.1 n.2.2 ∧ g'.cavein n ≠ some false ∧ extra = true then
    match g'.cavein n with
    | some true =>
      if (dgFind g'.caveinDepGraph n).isSome then
        match dgFind g'.caveinDepGraph c with
        | some l =>
          if n ∉ l then
            ({ g' with caveinDepGraph := dgAdd g'.caveinDepGraph n c }, ts)
          else (g', ts)
        | none => (g', ts)
      else if ¬ g'.is_edge_tile n.1 n.2.1 n.2.2 then
        ({ g' with caveinDepGraph := dgSet g'.caveinDepGraph n [c] }, ts)
      else (g', ts)
    | _ => if n ∈ qset then (g', ts) else (g', ts ++ [n])
  else (g', ts)

/-- GameMap.get_cavein_neighbors: the six blocks in source order (x-1, x+1,
y-1, y+1, z-1 with the below tile Wall/Door, z+1 with the current tile
Wall/Door).  The tiles array is never mutated here, so the extra conditions
read the incoming map. -/
def GameMap.get_cavein_neighbors (g : GameMap) (qset : List Coord) (c : Coord) :
    GameMap × List Coord :=
  let (z, x, y) := c
  let a1 := caveinNeighborVisit qset c (z, x - 1, y) true (g, [])
  let a2 := caveinNeighborVisit qset c (z, x + 1, y) true a1
  let a3 := caveinNeighborVisit qset c (z, x, y - 1) true a2
  let a4 := caveinNeighborVisit qset c (z, x, y + 1) true a3
  let a5 := caveinNeighborVisit qset c (z - 1, x, y)
    (decide (g.tiles (z - 1, x, y) = TileType.wall ∨
             g.tiles (z - 1, x, y) = TileType.door)) a4
  caveinNeighborVisit qset c (z + 1, x, y)
    (decide (g.tiles (z, x, y) = TileType.wall ∨
             g.tiles (z, x, y) = TileType.door)) a5

/-- The while loop of GameMap.cavein_init as a fuel-indexed recursion: pop
the queue head, drop it from q_set, flag it True, visit its neighbours, and
push each collected neighbour with a tree edge back to the popped voxel (an
entry-add when it already has an entry, a fresh entry for non-edge
voxels). -/
def caveinPush (t : Coord) (st : GameMap × List Coord × List Coord)
    (n : Coord) : GameMap × List Coord × List Coord :=
  let (gg, qq, qs) := st
  let gg' :=
    if (dgFind gg.caveinDepGraph n).isSome then
      { gg with caveinDepGraph := dgAdd gg.caveinDepGraph n t }
    else if ¬ gg.is_edge_tile n.1 n.2.1 n.2.2 then
      { gg with caveinDepGraph := dgSet gg.caveinDepGraph n [t] }
    else gg
  (gg', qq ++ [n], qs ++ [n])

def GameMap.cavein_bfs : Nat → GameMap → List Coord → List Coord → GameMap
  | 0, g, _, _ => g
  | _ + 1, g, [], _ => g
  | fuel + 1, g, t :: q, qset =>
    let qset1 := qset.erase t
    let g1 := { g with cavein := updC g.cavein t (some true) }
    let pr := g1.get_cavein_neighbors qset1 t
    let st := pr.2.foldl (caveinPush t) (pr.1, q, qset1)
    GameMap.cavein_bfs fuel st.1 st.2.1 st.2.2

/-- The initial scan of GameMap.cavein_init (z, x, y order): Empty voxels get
cavein False; non-Empty boundary voxels (the inlined is_edge_tile test) get
cavein True and enter the queue and q_set. -/
def caveinScanStep (st : GameMap × List Coord × List Coord) (c : Coord) :
    GameMap × List Coord × List Coord :=
  let (g', q, qs) := st
  if g'.tiles c = TileType.empty then
    ({ g' with cavein := updC g'.cavein c (some false) }, q, qs)
  else if c.1 = 0 ∨ c.1 = g'.depth - 1 ∨ c.2.1 = 0 ∨ c.2.1 = g'.width - 1 ∨
      c.2.2 = 0 ∨ c.2.2 = g'.height - 1 then
    ({ g' with cavein := updC g'.cavein c (some true) }, q ++ [c], qs ++ [c])
  else st

def GameMap.cavein_scan (g : GameMap) : GameMap × List Coord × List Coord :=
  g.allCoords.foldl caveinScanStep (g, [], [])

/-- GameMap.cavein_init: scan, multi-source BFS, then the collapse/damage
pass. -/
def GameMap.cavein_init (g : GameMap) (fuel : Nat) : GameMap :=
  let s1 := g.cavein_scan
  let g2 := GameMap.cavein_bfs fuel s1.1 s1.2.1 s1.2.2
  let r := g2.get_cavein_dmg_tiles
  (r.1).apply_cavein_dmg r.2.1 r.2.2

/-- GameMap.get_cavein_dfs_neighbors: the six neighbours (source order) that
are in bounds and currently flagged True. -/
def GameMap.get_cavein_dfs_neighbors (g : GameMap) (c : Coord) : List Coord :=
  ([(c.1, c.2.1 - 1, c.2.2), (c.1, c.2.1 + 1, c.2.2),
    (c.1, c.2.1, c.2.2 - 1), (c.1, c.2.1, c.2.2 + 1),
    (c.1 - 1, c.2.1, c.2.2), (c.1 + 1, c.2.1, c.2.2)]).filter
    fun n => decide (g.in_bounds n.1 n.2.1 n.2.2 ∧ g.cavein n = some true)

/-- GameMap.cavein_dfs: the re-justification walk.  When the walked voxel
depends on the triggering parent, either drop that one justification (more
remain) or collapse the voxel (flag False, entry deleted) and recurse into
its currently-True neighbours, skipping only the immediate parent. -/
def GameMap.cavein_dfs : Nat → GameMap → Coord → Coord → GameMap
  | 0, g, _, _ => g
  | fuel + 1, g, c, p =>
    match dgFind g.caveinDepGraph c with
    | none => g
    | some deps =>
      if p ∈ deps then
        if deps.length > 1 then
          { g with caveinDepGraph := dgSet g.caveinDepGraph c (deps.erase p) }
        else
          let g1 := { g with caveinDepGraph := dgErase g.caveinDepGraph c,
                             cavein := updC g.cavein c (some false) }
          (g1.get_cavein_dfs_neighbors c).foldl
            (fun gg n => if n ≠ p then GameMap.cavein_dfs fuel gg n c else gg) g1
      else g

/-- GameMap.remove_tile: flag the voxel False, delete its dependency entry,
run the DFS from each True neighbour, then the collapse/damage pass. -/
def GameMap.remove_tile (g : GameMap) (c : Coord) (fuel : Nat) : GameMap :=
  let g1 := { g with cavein := updC g.cavein c (some false) }
  let g2 :=
    if (dgFind g1.caveinDepGraph c).isSome then
      { g1 with caveinDepGraph := dgErase g1.caveinDepGraph c }
    else g1
  let g3 := (g2.get_cavein_dfs_neighbors c).foldl
    (fun gg n => GameMap.cavein_dfs fuel gg n c) g2
  let r := g3.get_cavein_dmg_tiles
  (r.1).apply_cavein_dmg r.2.1 r.2.2

/-- The support adjacency relation as evaluated by the flood code: the target
is in bounds and non-Empty, and is an in-plane 4-neighbour, or the voxel
below when that voxel is Wall/Door, or the voxel above when the source is
Wall/Door. -/
def supAdj (g : GameMap) (t n : Coord) : Prop :=
  g.in_bounds n.1 n.2.1 n.2.2 ∧ g.tiles n ≠ TileType.empty ∧
  (n = (t.1, t.2.1 - 1, t.2.2) ∨ n = (t.1, t.2.1 + 1, t.2.2) ∨
   n = (t.1, t.2.1, t.2.2 - 1) ∨ n = (t.1, t.2.1, t.2.2 + 1) ∨
   (n = (t.1 - 1, t.2.1, t.2.2) ∧
     (g.tiles n = TileType.wall ∨ g.tiles n = TileType.door)) ∨
   (n = (t.1 + 1, t.2.1, t.2.2) ∧
     (g.tiles t = TileType.wall ∨ g.tiles t = TileType.door)))

/-- Support reachability, the specification an independent full re-flood
computes: anchored at in-bounds non-Empty boundary voxels and closed under
the support adjacency relation on the current grid. -/
inductive Reachable (g : GameMap) : Coord → Prop where
  | anchor (c : Coord) : g.in_bounds c.1 c.2.1 c.2.2 →
      g.is_edge_tile c.1 c.2.1 c.2.2 → g.tiles c ≠ TileType.empty →
      Reachable g c
  | step (t n : Coord) : Reachable g t → supAdj g t n → Reachable g n

/-- BURNING_POINT (entity.py line 31). -/
def BURNING_POINT : Int := 10

/-- The fields of entity.Fire. -/
structure Fire where
  z : Int
  x : Int
  y : Int
  duration : Int
  turn_count : Int
deriving DecidableEq, Repr

/-- Fire.handle_turn.  Once the turn counter reaches BURNING_POINT the voxel
is marked on fire and its current light level must be snapshotted: an
existing snapshot raises Impossible (the turn counter increment after the
raise never runs, and the on_fire write already happened); otherwise the
snapshot dict gains the current light level. -/
def Fire.handle_turn (f : Fire) (g : GameMap) : GameMap × Except String Fire :=
  if f.turn_count ≥ BURNING_POINT then
    let g1 := { g with onFire := updC g.onFire (f.z, f.x, f.y) true }
    if (g1.lookupFireOrig (f.z, f.x, f.y)).isSome then
      (g1, Except.error "TODO: gamemap.fire_orig_light dict entries should be removed")
    else
      let g2 := { g1 with fireOrigLight :=
        g1.fireOrigLight ++ [((f.z, f.x, f.y), g1.get_light_tile f.z f.x f.y)] }
      (g2, Except.ok { f with turn_count := f.turn_count + 1 })
  else (g, Except.ok { f with turn_count := f.turn_count + 1 })

/-- The neighbour-ignition loop of GameMap.fire_spread (lines 583-588) over
an already-computed neighbour list (get_fire_neighbors selects in-bounds,
supported, not-burning Wood neighbours; only the snapshot bookkeeping is at
issue here): each target is set on fire, and its pre-fire light level is
snapshotted, raising Impossible when a snapshot already exists. -/
def GameMap.fire_spread_ignite (g : GameMap) : List Coord → Except String GameMap
  | [] => Except.ok g
  | t :: ts =>
    let g1 := { g with onFire := updC g.onFire t true }
    if (g1.lookupFireOrig t).isSome then
      Except.error "TODO: gamemap.fire_orig_light dict entries should be removed"
    else
      GameMap.fire_spread_ignite
        { g1 with fireOrigLight :=
            g1.fireOrigLight ++ [(t, g1.get_light_tile t.1 t.2.1 t.2.2)] } ts

/-- The neighbour shape of the support flood: the four in-plane neighbours
unconditionally, the voxel below when it is Wall/Door, the voxel above when
the source voxel is Wall/Door (the tile-type guards of the two vertical
blocks of get_cavein_neighbors). -/
def supShape (g : GameMap) (t n : Coord) : Prop :=
  n = (t.1, t.2.1 - 1, t.2.2) ∨ n = (t.1, t.2.1 + 1, t.2.2) ∨
  n = (t.1, t.2.1, t.2.2 - 1) ∨ n = (t.1, t.2.1, t.2.2 + 1) ∨
  (n = (t.1 - 1, t.2.1, t.2.2) ∧
    (g.tiles n = TileType.wall ∨ g.tiles n = TileType.door)) ∨
  (n = (t.1 + 1, t.2.1, t.2.2) ∧
    (g.tiles t = TileType.wall ∨ g.tiles t = TileType.door))

/-- The condition under which one neighbour visit of get_cavein_neighbors
collects its candidate into the queue batch. -/
def visitCond (gg : GameMap) (qs : List Coord) (n : Coord) (e : Bool) : Prop :=
  gg.in_bounds n.1 n.2.1 n.2.2 ∧ gg.cavein n ≠ some false ∧ e = true ∧
  gg.cavein n ≠ some true ∧ n ∉ qs

instance (gg : GameMap) (qs : List Coord) (n : Coord) (e : Bool) :
    Decidable (visitCond gg qs n e) := by
  unfold visitCond
  infer_instance

/-- The invariant carried through the cavein_init BFS loop, relative to the
post-scan grid facts of the original map g0. -/
structure BfsInv (g0 gg : GameMap) (q qs : List Coord) : Prop where
  tiles_eq : gg.tiles = g0.tiles
  depth_eq : gg.depth = g0.depth
  width_eq : gg.width = g0.width
  height_eq : gg.height = g0.height
  false_iff : ∀ c, gg.cavein c = some false ↔
    (g0.in_bounds c.1 c.2.1 c.2.2 ∧ g0.tiles c = TileType.empty)
  true_sound : ∀ c, gg.cavein c = some true →
    g0.in_bounds c.1 c.2.1 c.2.2 ∧ g0.tiles c ≠ TileType.empty ∧ Reachable g0 c
  queue_sound : ∀ c ∈ q,
    g0.in_bounds c.1 c.2.1 c.2.2 ∧ g0.tiles c ≠ TileType.empty ∧ Reachable g0 c
  queue_nodup : q.Nodup
  qs_nodup : qs.Nodup
  sync : ∀ c, c ∈ qs ↔ c ∈ q
  closure : ∀ c, gg.cavein c = some true → c ∉ q →
    ∀ n, supAdj g0 c n → gg.cavein n = some true ∨ n ∈ q

/-- What holds of the grid the BFS loop returns. -/
structure BfsOut (g0 r : GameMap) : Prop where
  tiles_eq : r.tiles = g0.tiles
  depth_eq : r.depth = g0.depth
  width_eq : r.width = g0.width
  height_eq : r.height = g0.height
  false_iff : ∀ c, r.cavein c = some false ↔
    (g0.in_bounds c.1 c.2.1 c.2.2 ∧ g0.tiles c = TileType.empty)
  true_sound : ∀ c, r.cavein c = some true →
    g0.in_bounds c.1 c.2.1 c.2.2 ∧ g0.tiles c ≠ TileType.empty ∧ Reachable g0 c
  closed : ∀ c, r.cavein c = some true → ∀ n, supAdj g0 c n →
    r.cavein n = some true

/-- The termination measure of the BFS loop: queue length plus twice the
number of in-bounds voxels still unflagged and not queued. -/
def bfsMeasure (g0 gg : GameMap) (q qs : List Coord) : Nat :=
  q.length + 2 * ((g0.allCoords.toFinset).filter
    (fun c => gg.cavein c = none ∧ c ∉ qs)).card

/-- The over-collapse scenario: a 3 by 4 by 4 grid with five walls in the
z = 1 plane: two edge anchors E1 = (1,0,2) and E2 = (1,2,0), and interior
walls T1 = (1,1,2), T2 = (1,2,1), T3 = (1,2,2).  The BFS records T3's only
justification as T1 (T2 is still queued when T3 is discovered), while the
re-flood path E2-T2-T3 stays untracked for T3. -/
def cexMap : GameMap :=
  { depth := 3
    width := 4
    height := 4
    tiles := fun c =>
      if c = (1, 0, 2) ∨ c = (1, 2, 0) ∨ c = (1, 1, 2) ∨ c = (1, 2, 1) ∨
         c = (1, 2, 2) then TileType.wall
      else TileType.empty
    transparent := fun c =>
      ¬ (c = (1, 0, 2) ∨ c = (1, 2, 0) ∨ c = (1, 1, 2) ∨ c = (1, 2, 1) ∨
         c = (1, 2, 2))
    cavein := fun _ => none
    caveinDepGraph := []
    outside := fun xy =>
      if xy = (0, 2) ∨ xy = (2, 0) ∨ xy = (1, 2) ∨ xy = (2, 1) ∨ xy = (2, 2)
      then 1 else -1
    light := GameMap.initLight
    lightFov := []
    fireOrigLight := []
    onFire := fun _ => false
    actors := []
    log := [] }

/-- The grid an independent re-flood would examine after remove_voxel(1,1,2):
cexMap with only the requested voxel emptied. -/
def cexMapRemoved : GameMap :=
  { cexMap with tiles := updC cexMap.tiles (1, 1, 2) TileType.empty }

/-- Claim C8 (confirmed): remove_tile_check raises Impossible iff the target
voxel is already Empty, and it never mutates the map state: the grid,
support flags, dependency graph, exposure map and light planes returned are
exactly the input's. -/
theorem remove_tile_check_iff_empty (g : GameMap) (z x y : Int) :
    (g.remove_tile_check z x y).1 = g ∧
    ((g.remove_tile_check z x y).2 = Except.error "Cannot remove empty tile" ↔
      g.tiles (z, x, y) = TileType.empty) ∧
    (g.tiles (z, x, y) ≠ TileType.empty →
      (g.remove_tile_check z x y).2 = Except.ok true) := by
  unfold GameMap.remove_tile_check
  split <;> simp_all

/-- Claim C10 (confirmed): get_light_tile is total.  Out of bounds it returns
None; in bounds, when the one-hot invariant holds at the voxel, it returns
the unique plane index (in 0..4) that is True there. -/
theorem get_light_tile_total (g : GameMap) (z x y : Int) :
    (¬ g.in_bounds z x y → g.get_light_tile z x y = none) ∧
    (g.in_bounds z x y → g.OneHotAt (z, x, y) →
      ∃ i : Fin 5, g.get_light_tile z x y = some (i.val : Int) ∧
        g.light i (z, x, y) = true ∧
        ∀ j : Fin 5, g.light j (z, x, y) = true → j = i) := by
  constructor
  · intro h
    unfold GameMap.get_light_tile
    simp [h]
  · intro hin hone
    obtain ⟨i, hi, huniq⟩ := hone
    have hsome : ((List.finRange 5).find? fun j => g.light j (z, x, y)).isSome := by
      rw [List.find?_isSome]
      exact ⟨i, List.mem_finRange i, hi⟩
    obtain ⟨a, ha⟩ := Option.isSome_iff_exists.mp hsome
    have hpa : g.light a (z, x, y) = true := by
      have h := List.find?_some ha
      exact h
    have hai : a = i := huniq a hpa
    refine ⟨a, ?_, hpa, fun j hj => (huniq j hj).trans hai.symm⟩
    unfold GameMap.get_light_tile
    simp [hin, ha]

/-- Helper: the unique true plane of a one-hot write.  If every plane at c
reads decide(i = lvl) with 0 ≤ lvl ≤ 4, then c is one-hot. -/
theorem oneHot_of_planes_decide (g : GameMap) (c : Coord) (lvl : Int)
    (h0 : 0 ≤ lvl) (h4 : lvl ≤ 4)
    (hL : ∀ i : Fin 5, g.light i c = decide ((i.val : Int) = lvl)) :
    g.OneHotAt c := by
  refine ⟨⟨lvl.toNat, by omega⟩, ?_, ?_⟩
  · show g.light ⟨lvl.toNat, by omega⟩ c = true
    rw [hL]
    simp only [decide_eq_true_eq]
    exact Int.toNat_of_nonneg h0
  · intro j hj
    rw [hL] at hj
    simp only [decide_eq_true_eq] at hj
    apply Fin.ext
    simp only
    omega

/-- Helper: set_light_tile with a level in 0..4 keeps every voxel one-hot. -/
theorem set_light_tile_oneHot (g : GameMap) (z x y lvl : Int)
    (h0 : 0 ≤ lvl) (h4 : lvl ≤ 4) (hg : ∀ c, g.OneHotAt c) :
    ∀ c, (g.set_light_tile z x y lvl).OneHotAt c := by
  intro c
  by_cases hc : c = g.npCoord z x y
  · apply oneHot_of_planes_decide _ _ lvl h0 h4
    intro i
    simp [GameMap.set_light_tile, updC, hc]
  · obtain ⟨i, hi, huniq⟩ := hg c
    refine ⟨i, ?_, ?_⟩
    · simpa [GameMap.set_light_tile, updC, hc] using hi
    · intro j hj
      exact huniq j (by simpa [GameMap.set_light_tile, updC, hc] using hj)

/-- Helper: membership in get_neighbor_tiles forces the same z and x/y
bounds. -/
theorem mem_get_neighbor_tiles (g : GameMap) (z x y : Int) (n : Coord)
    (hn : n ∈ g.get_neighbor_tiles z x y) :
    n.1 = z ∧ g.in_bounds_no_z n.2.1 n.2.2 := by
  simp only [GameMap.get_neighbor_tiles, List.mem_flatMap, List.mem_filterMap] at hn
  obtain ⟨i, _, j, _, hj⟩ := hn
  split at hj
  · rename_i hcond
    cases hj
    exact ⟨rfl, hcond.2⟩
  · cases hj

/-- Helper: the neighbour-count fold of diffuse_tile succeeds on a one-hot
map when every neighbour is in bounds, and the resulting bucket counts sum
to the neighbour count. -/
theorem diffuse_counts_fold (g : GameMap) (ns : List Coord)
    (hns : ∀ n ∈ ns, g.in_bounds n.1 n.2.1 n.2.2) (hone : ∀ c, g.OneHotAt c) :
    ∀ cnt0 : Fin 5 → Nat, ∃ cnt : Fin 5 → Nat,
      (ns.foldlM
        (fun (cnt : Fin 5 → Nat) n => do
          let i ← g.light_index n
          pure fun i' => if i' = i then cnt i' + 1 else cnt i')
        cnt0) = some cnt ∧
      (∑ i : Fin 5, cnt i) = ns.length + ∑ i : Fin 5, cnt0 i := by
  induction ns with
  | nil => intro cnt0; exact ⟨cnt0, rfl, by simp⟩
  | cons n rest ih =>
    intro cnt0
    have hin : g.in_bounds n.1 n.2.1 n.2.2 := hns n (by simp)
    obtain ⟨i0, hi0, _⟩ := hone n
    have hsome : ((List.finRange 5).find? fun i => g.light i n).isSome := by
      rw [List.find?_isSome]
      exact ⟨i0, List.mem_finRange i0, hi0⟩
    obtain ⟨a, ha⟩ := Option.isSome_iff_exists.mp hsome
    have hidx : g.light_index n = some a := by
      unfold GameMap.light_index
      rw [if_pos hin, ha]
    obtain ⟨cnt, hfold, hsum⟩ := ih (fun m hm => hns m (by simp [hm]))
      (fun i' => if i' = a then cnt0 i' + 1 else cnt0 i')
    refine ⟨cnt, ?_, ?_⟩
    · rw [List.foldlM_cons, hidx]
      simpa using hfold
    · rw [hsum]
      have hstep : (∑ i' : Fin 5, if i' = a then cnt0 i' + 1 else cnt0 i') =
          (∑ i' : Fin 5, cnt0 i') + 1 := by
        have hfix : ∀ i' : Fin 5,
            (if i' = a then cnt0 i' + 1 else cnt0 i') =
              cnt0 i' + (if i' = a then 1 else 0) := by
          intro i'; split <;> simp
        rw [Finset.sum_congr rfl fun i' _ => hfix i', Finset.sum_add_distrib]
        simp
      rw [hstep]
      simp only [List.length_cons]
      omega

/-- Claim C2 (confirmed): the light one-hot invariant.  Exactly one of the
five boolean planes is true at every voxel after each of the operations the
spec lists: at initialization; after set_light_tile for a level in 0..4 (the
only levels the code ever passes); after the fire overlay of update_tiles;
after diffuse_tile (its averaged level always lands in 0..4); and after
LowerVisibility activate and deactivate as invoked (non-negative particle
density, positive per-density amount, and a cached or overlay base value
that is non-negative). -/
theorem light_one_hot_invariant :
    (∀ g : GameMap, g.light = GameMap.initLight → ∀ c, g.OneHotAt c) ∧
    (∀ (g : GameMap) (z x y lvl : Int), 0 ≤ lvl → lvl ≤ 4 →
      (∀ c, g.OneHotAt c) → ∀ c, (g.set_light_tile z x y lvl).OneHotAt c) ∧
    (∀ g : GameMap, (∀ c, g.OneHotAt c) →
      ∀ c, g.update_tiles_fire_overlay.OneHotAt c) ∧
    (∀ (g : GameMap) (z x y : Int), (∀ c, g.OneHotAt c) → g.in_bounds_z z →
      g.get_neighbor_tiles z x y ≠ [] →
      ∃ g', g.diffuse_tile z x y = some g' ∧ ∀ c, g'.OneHotAt c) ∧
    (∀ (e : LowerVisibility) (g : GameMap) (z x y density : Int),
      0 ≤ density → 0 < e.per_density_amt → (∀ c, g.OneHotAt c) →
      ∀ g' e', e.activate g z x y density = some (g', e') → ∀ c, g'.OneHotAt c) ∧
    (∀ (e : LowerVisibility) (g : GameMap) (z x y : Int),
      (∀ v : Int, e.deactSource g z x y = some v → 0 ≤ v) →
      (∀ c, g.OneHotAt c) →
      ∀ g', e.deactivate g z x y = some g' → ∀ c, g'.OneHotAt c) := by
  refine ⟨?_, ?_, ?_, ?_, ?_, ?_⟩
  · -- initialization: plane 0 is the unique true plane everywhere
    intro g hg c
    apply oneHot_of_planes_decide g c 0 (by omega) (by omega)
    intro i
    rw [hg]
    unfold GameMap.initLight
    simp only [decide_eq_decide]
    omega
  · exact fun g z x y lvl h0 h4 hg => set_light_tile_oneHot g z x y lvl h0 h4 hg
  · -- the fire overlay forces plane 4 at burning voxels, else leaves all alone
    intro g hg c
    by_cases hc : g.onFire c = true
    · apply oneHot_of_planes_decide _ c 4 (by omega) (by omega)
      intro i
      unfold GameMap.update_tiles_fire_overlay
      simp only [hc, if_true, decide_eq_decide]
      omega
    · obtain ⟨i, hi, huniq⟩ := hg c
      refine ⟨i, ?_, ?_⟩
      · simpa [GameMap.update_tiles_fire_overlay, hc] using hi
      · intro j hj
        exact huniq j (by simpa [GameMap.update_tiles_fire_overlay, hc] using hj)
  · -- diffusion: the averaged level is in 0..4
    intro g z x y hg hz hne
    have hns : ∀ n ∈ g.get_neighbor_tiles z x y, g.in_bounds n.1 n.2.1 n.2.2 := by
      intro n hn
      obtain ⟨h1, h2⟩ := mem_get_neighbor_tiles g z x y n hn
      exact ⟨h1 ▸ hz, h2⟩
    obtain ⟨cnt, hfold, hsum⟩ := diffuse_counts_fold g _ hns hg (fun _ => 0)
    have htotal : (∑ i : Fin 5, cnt i) ≠ 0 := by
      rw [hsum]
      simp only [Finset.sum_const_zero, Nat.add_zero]
      intro h
      exact hne (List.length_eq_zero.mp h)
    have hlow : (∑ i : Fin 5, cnt i) ≤ ∑ i : Fin 5, (i.val + 1) * cnt i := by
      apply Finset.sum_le_sum
      intro i _
      exact Nat.le_mul_of_pos_left (cnt i) (by omega)
    have hhigh : (∑ i : Fin 5, (i.val + 1) * cnt i) ≤ 5 * ∑ i : Fin 5, cnt i := by
      rw [Finset.mul_sum]
      apply Finset.sum_le_sum
      intro i _
      exact Nat.mul_le_mul_right (cnt i) (by omega)
    have hq1 : 1 ≤ (∑ i : Fin 5, (i.val + 1) * cnt i) / (∑ i : Fin 5, cnt i) :=
      (Nat.one_le_div_iff (Nat.pos_of_ne_zero htotal)).mpr hlow
    have hq5 : (∑ i : Fin 5, (i.val + 1) * cnt i) / (∑ i : Fin 5, cnt i) < 6 := by
      apply Nat.div_lt_of_lt_mul
      calc (∑ i : Fin 5, (i.val + 1) * cnt i) ≤ 5 * ∑ i : Fin 5, cnt i := hhigh
        _ < (∑ i : Fin 5, cnt i) * 6 := by
            have := Nat.pos_of_ne_zero htotal
            omega
    set q : Nat := (∑ i : Fin 5, (i.val + 1) * cnt i) / (∑ i : Fin 5, cnt i) with hqdef
    refine ⟨g.set_light_tile z x y ((q : Int) - 1), ?_, ?_⟩
    · unfold GameMap.diffuse_tile
      simp only [Option.bind_eq_bind] at hfold ⊢
      simp only [hfold, Option.some_bind, htotal, if_false, hqdef]
    · exact set_light_tile_oneHot g z x y _ (by omega) (by omega) hg
  · -- LowerVisibility.activate writes a level clamped into 0..4
    intro e g z x y density hd hpda hg g' e' hres c
    unfold LowerVisibility.activate at hres
    have hne0 : ¬ e.per_density_amt = 0 := by omega
    have htd : 0 ≤ Int.tdiv density e.per_density_amt :=
      Int.tdiv_nonneg hd (le_of_lt hpda)
    rcases hB : e.resolveBase g z x y with _ | bv0
    · rw [hB] at hres
      simp at hres
    rcases bv0 with _ | bv
    · rw [hB] at hres
      simp at hres
    rw [hB] at hres
    simp only [Option.bind_eq_bind, Option.some_bind, hne0, if_false,
      Option.some.injEq, Prod.mk.injEq] at hres
    obtain ⟨hg', _⟩ := hres
    have hla : 0 ≤ (if (if g.outside (x, y) > z then (if bv > 3 then 3 else bv)
          else (if bv > 4 then 4 else bv)) - Int.tdiv density e.per_density_amt < 0
          then 0
          else (if g.outside (x, y) > z then (if bv > 3 then 3 else bv)
            else (if bv > 4 then 4 else bv)) - Int.tdiv density e.per_density_amt) ∧
        (if (if g.outside (x, y) > z then (if bv > 3 then 3 else bv)
          else (if bv > 4 then 4 else bv)) - Int.tdiv density e.per_density_amt < 0
          then 0
          else (if g.outside (x, y) > z then (if bv > 3 then 3 else bv)
            else (if bv > 4 then 4 else bv)) - Int.tdiv density e.per_density_amt) ≤ 4 := by
      split <;> split <;> split <;> omega
    rw [← hg']
    exact set_light_tile_oneHot _ z x y _ hla.1 hla.2 (fun c0 => hg c0) c
  · -- LowerVisibility.deactivate restores a clamped non-negative level
    intro e g z x y hsv hg g' hres c
    unfold LowerVisibility.deactivate at hres
    rcases hS : e.deactSource g z x y with _ | sv
    · rw [hS] at hres
      simp at hres
    have hsv0 : 0 ≤ sv := hsv sv hS
    rcases hT : e.base_transparency with _ | bt
    · rw [hS, hT] at hres
      simp at hres
    rw [hS, hT] at hres
    simp only [Option.bind_eq_bind, Option.some_bind, Option.some.injEq] at hres
    have hone1 : ∀ c0, (g.set_light_tile z x y
        (if g.outside (x, y) > z then (if sv > 3 then 3 else sv)
         else (if sv > 4 then 4 else sv))).OneHotAt c0 := by
      apply set_light_tile_oneHot g z x y _ (by split <;> split <;> omega)
        (by split <;> split <;> omega) hg
    rw [← hres]
    exact hone1 c

/-- Witness for light_one_hot_invariant: every hypothesis discharged on the
concrete demoMap — fresh planes, a set_light_tile write, the fire overlay,
a diffusion step, and a LowerVisibility activate and deactivate. -/
theorem light_one_hot_invariant_witness :
    demoMap.OneHotAt (0, 0, 0) ∧
    (demoMap.set_light_tile 0 0 0 3).OneHotAt (0, 0, 0) ∧
    demoMap.update_tiles_fire_overlay.OneHotAt (1, 1, 1) ∧
    (∃ g', demoMap.diffuse_tile 0 1 1 = some g' ∧ g'.OneHotAt (0, 1, 1)) ∧
    (∃ g' e', LowerVisibility.activate ⟨10, none, none⟩ demoMap 0 1 1 50 =
      some (g', e') ∧ g'.OneHotAt (0, 1, 1)) ∧
    (∃ g', LowerVisibility.deactivate ⟨10, some 4, some true⟩ demoMap 0 1 1 =
      some g' ∧ g'.OneHotAt (0, 1, 1)) := by
  have hone : ∀ c, demoMap.OneHotAt c := light_one_hot_invariant.1 demoMap rfl
  refine ⟨hone (0, 0, 0), ?_, ?_, ?_, ?_, ?_⟩
  · exact light_one_hot_invariant.2.1 demoMap 0 0 0 3 (by omega) (by omega)
      hone (0, 0, 0)
  · exact light_one_hot_invariant.2.2.1 demoMap hone (1, 1, 1)
  · obtain ⟨g', hg', hg'one⟩ := light_one_hot_invariant.2.2.2.1 demoMap 0 1 1
      hone (by decide) (by decide)
    exact ⟨g', hg', hg'one (0, 1, 1)⟩
  · have hs : (LowerVisibility.activate ⟨10, none, none⟩ demoMap 0 1 1 50).isSome := by
      decide
    obtain ⟨⟨g', e'⟩, hres⟩ := Option.isSome_iff_exists.mp hs
    exact ⟨g', e', hres, light_one_hot_invariant.2.2.2.2.1 ⟨10, none, none⟩
      demoMap 0 1 1 50 (by omega) (by decide) hone g' e' hres (0, 1, 1)⟩
  · have hs : (LowerVisibility.deactivate ⟨10, some 4, some true⟩ demoMap 0 1 1).isSome := by
      decide
    obtain ⟨g', hres⟩ := Option.isSome_iff_exists.mp hs
    refine ⟨g', hres, light_one_hot_invariant.2.2.2.2.2 ⟨10, some 4, some true⟩
      demoMap 0 1 1 ?_ hone g' hres (0, 1, 1)⟩
    intro v hv
    injection (show some (4 : Int) = some v from hv) with h
    omega

/-- Witness for get_light_tile_total: on the concrete demoMap, the coordinate
(9,0,0) is out of bounds and yields None, while (0,0,0) is in bounds,
one-hot, and yields its unique true plane. -/
theorem get_light_tile_total_witness :
    demoMap.get_light_tile 9 0 0 = none ∧
    ∃ i : Fin 5, demoMap.get_light_tile 0 0 0 = some (i.val : Int) ∧
      demoMap.light i (0, 0, 0) = true ∧
      ∀ j : Fin 5, demoMap.light j (0, 0, 0) = true → j = i :=
  ⟨(get_light_tile_total demoMap 9 0 0).1 (by decide),
   (get_light_tile_total demoMap 0 0 0).2 (by decide) (by decide)⟩

/-! ### Claim C3: LowerVisibility effect reversibility -/

/-- Helper: with non-negative components the numpy wrap is the identity. -/
theorem npCoord_nonneg (g : GameMap) (z x y : Int)
    (hz : 0 ≤ z) (hx : 0 ≤ x) (hy : 0 ≤ y) : g.npCoord z x y = (z, x, y) := by
  unfold GameMap.npCoord GameMap.npIdx
  rw [if_neg (by omega), if_neg (by omega), if_neg (by omega)]

/-- Helper: a light level read back from the planes is one of 0..4. -/
theorem get_light_tile_bounds (g : GameMap) (z x y L : Int)
    (h : g.get_light_tile z x y = some L) : 0 ≤ L ∧ L ≤ 4 := by
  unfold GameMap.get_light_tile at h
  split at h
  · cases hfind : (List.finRange 5).find? fun i => g.light i (z, x, y) with
    | none => rw [hfind] at h; cases h
    | some a =>
      rw [hfind] at h
      simp only [Option.map_some', Option.some.injEq] at h
      have := a.isLt
      omega
  · cases h

/-- Helper: when every plane at (z,x,y) reads decide(i = lvl) for a level in
0..4 and the voxel is in bounds, get_light_tile returns exactly lvl. -/
theorem get_light_tile_eq_level (g : GameMap) (z x y lvl : Int)
    (hin : g.in_bounds z x y) (h0 : 0 ≤ lvl) (h4 : lvl ≤ 4)
    (hplanes : ∀ i : Fin 5, g.light i (z, x, y) = decide ((i.val : Int) = lvl)) :
    g.get_light_tile z x y = some lvl := by
  have hsome : ((List.finRange 5).find? fun i => g.light i (z, x, y)).isSome := by
    rw [List.find?_isSome]
    refine ⟨⟨lvl.toNat, by omega⟩, List.mem_finRange _, ?_⟩
    rw [hplanes]
    simp only [decide_eq_true_eq]
    exact Int.toNat_of_nonneg h0
  obtain ⟨a, ha⟩ := Option.isSome_iff_exists.mp hsome
  have hpa : g.light a (z, x, y) = true := by
    have h := List.find?_some ha
    exact h
  rw [hplanes] at hpa
  simp only [decide_eq_true_eq] at hpa
  unfold GameMap.get_light_tile
  rw [if_pos hin, ha]
  simp [hpa]

/-- Helper: the planes of set_light_tile at the written (non-negative)
coordinate. -/
theorem set_light_tile_planes_at (g : GameMap) (z x y lvl : Int)
    (hz : 0 ≤ z) (hx : 0 ≤ x) (hy : 0 ≤ y) :
    ∀ i : Fin 5, (g.set_light_tile z x y lvl).light i (z, x, y) =
      decide ((i.val : Int) = lvl) := by
  intro i
  unfold GameMap.set_light_tile
  simp only [updC, npCoord_nonneg g z x y hz hx hy, if_pos rfl, if_true]

/-- Helper: writing the same value at the same key twice is one write. -/
theorem updC_updC {α : Type} (f : Coord → α) (c : Coord) (v : α) :
    updC (updC f c v) c v = updC f c v := by
  funext c'
  unfold updC
  split <;> rfl

/-- Helper: the output of LowerVisibility.activate once the base value and
transparency resolve. -/
theorem activate_output (e : LowerVisibility) (g : GameMap) (z x y density bvL : Int)
    (T : Bool) (hres : e.resolveBase g z x y = some (some bvL))
    (hrt : e.resolveTransparency g z x y = T) (hpda : e.per_density_amt ≠ 0) :
    e.activate g z x y density = some
      (({ g with transparent := updC g.transparent (z, x, y)
                                     (if (if g.outside (x, y) > z then (if bvL > 3 then 3 else bvL)
                                          else (if bvL > 4 then 4 else bvL)) -
                                         Int.tdiv density e.per_density_amt < 0 then false else T)
        }).set_light_tile z x y
          (if (if g.outside (x, y) > z then (if bvL > 3 then 3 else bvL)
               else (if bvL > 4 then 4 else bvL)) -
              Int.tdiv density e.per_density_amt < 0 then 0
           else (if g.outside (x, y) > z then (if bvL > 3 then 3 else bvL)
                 else (if bvL > 4 then 4 else bvL)) -
              Int.tdiv density e.per_density_amt),
       { e with base_value := some bvL, base_transparency := some T }) := by
  unfold LowerVisibility.activate
  rw [hres, hrt]
  simp only [Option.bind_eq_bind, Option.some_bind, if_neg hpda]

/-- Helper: the output of LowerVisibility.deactivate once the restore value
and cached transparency resolve. -/
theorem deactivate_output (e : LowerVisibility) (g : GameMap) (z x y sv : Int)
    (T : Bool) (hsrc : e.deactSource g z x y = some sv)
    (hbt : e.base_transparency = some T) :
    e.deactivate g z x y = some
      { g.set_light_tile z x y
          (if g.outside (x, y) > z then (if sv > 3 then 3 else sv)
           else (if sv > 4 then 4 else sv)) with
        transparent := updC
          (g.set_light_tile z x y
            (if g.outside (x, y) > z then (if sv > 3 then 3 else sv)
             else (if sv > 4 then 4 else sv))).transparent (z, x, y) T } := by
  unfold LowerVisibility.deactivate
  rw [hsrc, hbt]
  simp only [Option.bind_eq_bind, Option.some_bind]


/-- Claim C3 counterexample: activate then deactivate does not always restore
the exact pre-activation light level.  At the indoor voxel (0,1,1) of
demoMap (its column exposure is 2 > 0) with light level 4, a LowerVisibility
effect with per_density_amt 10 at density 5 is activated then deactivated,
and the voxel comes back at level 3, not 4: deactivate clamps the cached
value to the indoor ceiling. -/
theorem lower_visibility_restore_not_exact :
    (demoMap.set_light_tile 0 1 1 4).get_light_tile 0 1 1 = some 4 ∧
    (((((⟨10, none, none⟩ : LowerVisibility)).activate
        (demoMap.set_light_tile 0 1 1 4) 0 1 1 5).bind
      fun r => r.2.deactivate r.1 0 1 1).bind
      fun g2 => g2.get_light_tile 0 1 1) = some 3 := by
  constructor
  · decide
  · decide

/-- Claim C3 (corrected, amended): activating a LowerVisibility effect once
or repeatedly and then deactivating it restores the voxel's transparent
flag exactly and restores the light level clamped to the column ceiling (3
when the column exposure lies above the voxel, else 4); the light level is
restored exactly iff the pre-activation level did not exceed that ceiling.
Stated for a voxel with no light_fov entry, not on fire, and a fresh effect
whose caches are empty. -/
theorem lower_visibility_restores_clamped
    (g : GameMap) (e : LowerVisibility) (z x y density L : Int) (k : Nat)
    (hfov : g.lookupFov (z, x, y) = none)
    (hfire : g.onFire (z, x, y) = false)
    (hbv : e.base_value = none) (hbt : e.base_transparency = none)
    (hpda : e.per_density_amt ≠ 0)
    (hL : g.get_light_tile z x y = some L) :
    ∃ g1 e1 g2,
      activateIter z x y density (k + 1) (g, e) = some (g1, e1) ∧
      e1.deactivate g1 z x y = some g2 ∧
      g2.get_light_tile z x y =
        some (if g.outside (x, y) > z then (if L > 3 then 3 else L)
              else (if L > 4 then 4 else L)) ∧
      g2.transparent (z, x, y) = g.transparent (z, x, y) ∧
      ((if g.outside (x, y) > z then (if L > 3 then 3 else L)
        else (if L > 4 then 4 else L)) = L ↔
        ((g.outside (x, y) > z → L ≤ 3) ∧ (¬ g.outside (x, y) > z → L ≤ 4))) := by
  have hin : g.in_bounds z x y := by
    by_contra hni
    unfold GameMap.get_light_tile at hL
    rw [if_neg hni] at hL
    cases hL
  have hz0 : 0 ≤ z := hin.1.1
  have hx0 : 0 ≤ x := hin.2.1.1
  have hy0 : 0 ≤ y := hin.2.2.1
  obtain ⟨hL0, hL4⟩ := get_light_tile_bounds g z x y L hL
  have hres1 : e.resolveBase g z x y = some (some L) := by
    unfold LowerVisibility.resolveBase
    rw [hfov, hbv, hfire]
    simp [hL]
  have hrt1 : e.resolveTransparency g z x y = g.transparent (z, x, y) := by
    unfold LowerVisibility.resolveTransparency
    rw [hbt]
  have hstep1 := activate_output e g z x y density L (g.transparent (z, x, y))
    hres1 hrt1 hpda
  set T := g.transparent (z, x, y) with hTdef
  set clamped := (if g.outside (x, y) > z then (if L > 3 then 3 else L)
      else (if L > 4 then 4 else L)) with hclamped
  set la0 := clamped - Int.tdiv density e.per_density_amt with hla0
  set G1 := ({ g with transparent := updC g.transparent (z, x, y)
                                          (if la0 < 0 then false else T) }).set_light_tile z x y
      (if la0 < 0 then 0 else la0) with hG1
  set E1 : LowerVisibility :=
    { e with base_value := some L, base_transparency := some T } with hE1
  have hstep1' : e.activate g z x y density = some (G1, E1) := hstep1
  have hfovG1 : G1.lookupFov (z, x, y) = none := hfov
  have hresG1 : E1.resolveBase G1 z x y = some (some L) := by
    unfold LowerVisibility.resolveBase
    rw [hfovG1]
  have hrtG1 : E1.resolveTransparency G1 z x y = T := rfl
  have hpdaE1 : E1.per_density_amt ≠ 0 := hpda
  have hfix : E1.activate G1 z x y density = some (G1, E1) := by
    have h := activate_output E1 G1 z x y density L T hresG1 hrtG1 hpdaE1
    rw [h]
    have houtside : G1.outside = g.outside := rfl
    have hE1eq :
        ({ E1 with base_value := some L, base_transparency := some T } :
          LowerVisibility) = E1 := rfl
    have hG1eq : ({ G1 with transparent := updC G1.transparent (z, x, y)
                                                (if (if G1.outside (x, y) > z then (if L > 3 then 3 else L)
                                                     else (if L > 4 then 4 else L)) -
                                                    Int.tdiv density E1.per_density_amt < 0 then false else T)
      }).set_light_tile z x y
        (if (if G1.outside (x, y) > z then (if L > 3 then 3 else L)
             else (if L > 4 then 4 else L)) -
            Int.tdiv density E1.per_density_amt < 0 then 0
         else (if G1.outside (x, y) > z then (if L > 3 then 3 else L)
               else (if L > 4 then 4 else L)) -
            Int.tdiv density E1.per_density_amt) = G1 := by
      have hsame : (if G1.outside (x, y) > z then (if L > 3 then 3 else L)
          else (if L > 4 then 4 else L)) -
          Int.tdiv density E1.per_density_amt = la0 := rfl
      rw [hsame]
      unfold GameMap.set_light_tile
      ext
      all_goals try rfl
      · rename_i c
        change updC (updC g.transparent (z, x, y) (if la0 < 0 then false else T))
            (z, x, y) (if la0 < 0 then false else T) c =
          updC g.transparent (z, x, y) (if la0 < 0 then false else T) c
        rw [updC_updC]
      · rename_i i c
        change updC (updC (g.light i) (g.npCoord z x y)
              (decide ((i.val : Int) = (if la0 < 0 then 0 else la0))))
            (g.npCoord z x y)
            (decide ((i.val : Int) = (if la0 < 0 then 0 else la0))) c =
          updC (g.light i) (g.npCoord z x y)
            (decide ((i.val : Int) = (if la0 < 0 then 0 else la0))) c
        rw [updC_updC]
    rw [hG1eq, hE1eq]
  have hiterfix : ∀ n, activateIter z x y density n (G1, E1) = some (G1, E1) := by
    intro n
    induction n with
    | zero => rfl
    | succ m ih =>
      show (E1.activate G1 z x y density).bind (activateIter z x y density m) =
        some (G1, E1)
      rw [hfix]
      simpa using ih
  have hiter : activateIter z x y density (k + 1) (g, e) = some (G1, E1) := by
    show (e.activate g z x y density).bind (activateIter z x y density k) =
      some (G1, E1)
    rw [hstep1']
    simpa using hiterfix k
  have hsrc : E1.deactSource G1 z x y = some L := by
    unfold LowerVisibility.deactSource
    rw [hfovG1]
  have hbtE1 : E1.base_transparency = some T := rfl
  have hdeact := deactivate_output E1 G1 z x y L T hsrc hbtE1
  have houtG1 : G1.outside (x, y) = g.outside (x, y) := rfl
  refine ⟨G1, E1, _, hiter, hdeact, ?_, ?_, ?_⟩
  · have hplanes : ∀ i : Fin 5,
        ({ G1.set_light_tile z x y
            (if G1.outside (x, y) > z then (if L > 3 then 3 else L)
             else (if L > 4 then 4 else L)) with
          transparent := updC (G1.set_light_tile z x y
            (if G1.outside (x, y) > z then (if L > 3 then 3 else L)
             else (if L > 4 then 4 else L))).transparent (z, x, y) T } :
          GameMap).light i (z, x, y) =
          decide ((i.val : Int) = (if G1.outside (x, y) > z
            then (if L > 3 then 3 else L) else (if L > 4 then 4 else L))) := by
      intro i
      show (G1.set_light_tile z x y
          (if G1.outside (x, y) > z then (if L > 3 then 3 else L)
           else (if L > 4 then 4 else L))).light i (z, x, y) = _
      exact set_light_tile_planes_at G1 z x y _ hz0 hx0 hy0 i
    have hcl0 : (0 : Int) ≤ (if G1.outside (x, y) > z then (if L > 3 then 3 else L)
        else (if L > 4 then 4 else L)) := by
      split <;> split <;> omega
    have hcl4 : (if G1.outside (x, y) > z then (if L > 3 then 3 else L)
        else (if L > 4 then 4 else L)) ≤ 4 := by
      split <;> split <;> omega
    have hres := get_light_tile_eq_level _ z x y _ (by exact hin) hcl0 hcl4 hplanes
    rw [hres, houtG1]
  · show updC (G1.set_light_tile z x y
        (if G1.outside (x, y) > z then (if L > 3 then 3 else L)
         else (if L > 4 then 4 else L))).transparent (z, x, y) T (z, x, y) = T
    unfold updC
    rw [if_pos rfl]
  · rw [hclamped]
    constructor
    · intro hcl
      constructor
      · intro hio
        rw [if_pos hio] at hcl
        by_cases h3 : L > 3
        · rw [if_pos h3] at hcl; omega
        · omega
      · intro hio
        rw [if_neg hio] at hcl
        by_cases h4 : L > 4
        · rw [if_pos h4] at hcl; omega
        · omega
    · intro ⟨hind, houtd⟩
      by_cases hio : g.outside (x, y) > z
      · rw [if_pos hio, if_neg (by have := hind hio; omega)]
      · rw [if_neg hio, if_neg (by have := houtd hio; omega)]



/-- Witness for lower_visibility_restores_clamped: on demoMap at voxel
(0,1,1), light level 0, a fresh effect is activated once and deactivated,
and the level and transparency come back exactly. -/
theorem lower_visibility_restores_clamped_witness :
    ∃ g1 e1 g2,
      activateIter 0 1 1 5 (0 + 1)
        (demoMap, (⟨10, none, none⟩ : LowerVisibility)) = some (g1, e1) ∧
      e1.deactivate g1 0 1 1 = some g2 ∧
      g2.get_light_tile 0 1 1 = some 0 ∧
      g2.transparent (0, 1, 1) = demoMap.transparent (0, 1, 1) := by
  obtain ⟨g1, e1, g2, h1, h2, h3, h4, _⟩ :=
    lower_visibility_restores_clamped demoMap ⟨10, none, none⟩ 0 1 1 5 0 0
      (by decide) (by decide) rfl rfl (by decide) (by decide)
  refine ⟨g1, e1, g2, h1, h2, ?_, h4⟩
  rw [h3]
  decide


/-! ### Claim C4 and C5: particle spread density accounting -/

/-- Helper: the arithmetic core of one spread event.  With density D >= 1, a
spread fraction in [0,1] and n >= 1 destinations, the retained density plus
the distributed total stays at most D and loses at most n to the int()
floors. -/
theorem spread_arith (D : Int) (sd : ℚ) (n : Nat)
    (hD : 1 ≤ D) (h0 : 0 ≤ sd) (h1 : sd ≤ 1) (hn : 1 ≤ n) :
    0 ≤ ⌊(D : ℚ) * sd⌋ ∧
    0 ≤ Int.tdiv ⌊(D : ℚ) * sd⌋ (n : Int) ∧
    ⌊(D : ℚ) * (1 - sd)⌋ +
      (if Int.tdiv ⌊(D : ℚ) * sd⌋ (n : Int) > 0
       then (n : Int) * Int.tdiv ⌊(D : ℚ) * sd⌋ (n : Int) else 0) ≤ D ∧
    D - (⌊(D : ℚ) * (1 - sd)⌋ +
      (if Int.tdiv ⌊(D : ℚ) * sd⌋ (n : Int) > 0
       then (n : Int) * Int.tdiv ⌊(D : ℚ) * sd⌋ (n : Int) else 0)) ≤ (n : Int) := by
  have hD0 : (0 : ℚ) ≤ (D : ℚ) := by exact_mod_cast (by omega : (0 : Int) ≤ D)
  have hT0 : 0 ≤ ⌊(D : ℚ) * sd⌋ := Int.floor_nonneg.mpr (mul_nonneg hD0 h0)
  have hn0 : (0 : Int) < (n : Int) := by exact_mod_cast hn
  have hnewD : ⌊(D : ℚ) * (1 - sd)⌋ = D - ⌈(D : ℚ) * sd⌉ := by
    rw [show (D : ℚ) * (1 - sd) = (D : ℚ) + (-((D : ℚ) * sd)) by ring]
    rw [Int.floor_int_add, Int.floor_neg]
    ring
  have hc1 : ⌊(D : ℚ) * sd⌋ ≤ ⌈(D : ℚ) * sd⌉ := Int.floor_le_ceil _
  have hc2 : ⌈(D : ℚ) * sd⌉ ≤ ⌊(D : ℚ) * sd⌋ + 1 := Int.ceil_le_floor_add_one _
  have hTD : ⌊(D : ℚ) * sd⌋ ≤ D := by
    have : (D : ℚ) * sd ≤ (D : ℚ) := mul_le_of_le_one_right hD0 h1
    calc ⌊(D : ℚ) * sd⌋ ≤ ⌊(D : ℚ)⌋ := Int.floor_le_floor this
      _ = D := Int.floor_intCast D
  have hper : Int.tdiv ⌊(D : ℚ) * sd⌋ (n : Int) = ⌊(D : ℚ) * sd⌋ / (n : Int) :=
    Int.tdiv_eq_ediv hT0 (le_of_lt hn0)
  have hdiv := Int.ediv_add_emod ⌊(D : ℚ) * sd⌋ (n : Int)
  have hmod0 : 0 ≤ ⌊(D : ℚ) * sd⌋ % (n : Int) :=
    Int.emod_nonneg _ (by omega)
  have hmodn : ⌊(D : ℚ) * sd⌋ % (n : Int) < (n : Int) :=
    Int.emod_lt_of_pos _ hn0
  have hdivnn : 0 ≤ ⌊(D : ℚ) * sd⌋ / (n : Int) := Int.ediv_nonneg hT0 (by omega)
  have hbig : (n : Int) ≤ ⌊(D : ℚ) * sd⌋ → (1 : Int) ≤ ⌊(D : ℚ) * sd⌋ / (n : Int) :=
    fun hc => (Int.le_ediv_iff_mul_le hn0).mpr (by omega)
  refine ⟨hT0, by rw [hper]; positivity, ?_, ?_⟩
  · rw [hnewD, hper]
    by_cases hp : ⌊(D : ℚ) * sd⌋ / (n : Int) > 0
    · rw [if_pos hp]
      omega
    · rw [if_neg hp]
      omega
  · rw [hnewD, hper]
    by_cases hp : ⌊(D : ℚ) * sd⌋ / (n : Int) > 0
    · rw [if_pos hp]
      omega
    · rw [if_neg hp]
      by_cases hlt : ⌊(D : ℚ) * sd⌋ < (n : Int)
      · omega
      · exfalso
        have := hbig (by omega)
        omega

/-- Helper: when no same-type particle resides at the voxel, the inner loop
leaves the list alone and reports not found. -/
theorem spreadIntoList_none (self : Particle) (per : Int) (l : List Particle)
    (h : firstSameType self.particle_type l = none) :
    spreadIntoList self per l = (l, false) := by
  induction l with
  | nil => rfl
  | cons q rest ih =>
    unfold firstSameType at h
    unfold spreadIntoList
    split at h
    · cases h
    · rename_i hne
      rw [if_neg hne, ih h]

/-- Helper: when the first same-type resident can take the share under the
cap, the inner loop adds exactly per to the list's total density. -/
theorem spreadIntoList_some (self : Particle) (per : Int) (l : List Particle)
    (q : Particle) (h : firstSameType self.particle_type l = some q)
    (hq : q.density + per < self.density) :
    (spreadIntoList self per l).2 = true ∧
    ((spreadIntoList self per l).1.map Particle.density).sum =
      (l.map Particle.density).sum + per := by
  induction l with
  | nil => cases h
  | cons r rest ih =>
    unfold firstSameType at h
    unfold spreadIntoList
    split at h
    · rename_i hty
      injection h with hrq
      subst hrq
      rw [if_pos hty, if_pos hq]
      constructor
      · rfl
      · simp only [List.map_cons, List.sum_cons]
        ring
    · rename_i hne
      rw [if_neg hne]
      obtain ⟨hfound, hsum⟩ := ih h
      constructor
      · simpa using hfound
      · simp only [List.map_cons, List.sum_cons]
        have : ((spreadIntoList self per rest).1.map Particle.density).sum =
            (rest.map Particle.density).sum + per := hsum
        simp only [List.map_cons, List.sum_cons, this]
        ring

/-- Helper: pdFind misses exactly when no entry has the key. -/
theorem pdFind_eq_none (d : PDict) (c : Coord) :
    pdFind d c = none ↔ ∀ e ∈ d, e.1 ≠ c := by
  unfold pdFind
  rw [Option.map_eq_none', List.find?_eq_none]
  constructor
  · intro h e he
    have := h e he
    simpa using this
  · intro h e he
    simpa using h e he

/-- Helper: a present key keeps pdSet as an in-place map, and the total
density shifts by the difference of the stored lists. -/
theorem pdSet_found_density (d : PDict) (c : Coord) (pl L : List Particle)
    (hnodup : (d.map Prod.fst).Nodup) (hfind : pdFind d c = some pl) :
    pdDensity (pdSet d c L) =
      pdDensity d - (pl.map Particle.density).sum + (L.map Particle.density).sum := by
  induction d with
  | nil => cases hfind
  | cons e rest ih =>
    by_cases hc : e.1 = c
    · have hpl : pl = e.2 := by
        unfold pdFind at hfind
        rw [List.find?_cons_of_pos _ (by simpa using hc)] at hfind
        simpa using hfind.symm
      have hrest : ∀ e' ∈ rest, e'.1 ≠ c := by
        intro e' he'
        simp only [List.map_cons, List.nodup_cons] at hnodup
        intro hk
        exact hnodup.1 (hc ▸ hk ▸ List.mem_map_of_mem Prod.fst he')
      have hmap : rest.map (fun e' => if e'.1 = c then (c, L) else e') = rest := by
        refine (List.map_congr_left ?_).trans (List.map_id rest)
        intro e' he'
        rw [if_neg (hrest e' he')]
        rfl
      unfold pdSet
      rw [if_pos (by unfold pdFind; rw [List.find?_cons_of_pos _ (by simpa using hc)]; rfl)]
      simp only [List.map_cons, hc, if_pos rfl, hmap]
      unfold pdDensity
      simp only [List.map_cons, List.sum_cons, hpl, if_true]
      ring
    · have hfind' : pdFind rest c = some pl := by
        unfold pdFind at hfind ⊢
        rw [List.find?_cons_of_neg _ (by simpa using hc)] at hfind
        exact hfind
      have hfindcons : pdFind (e :: rest) c = pdFind rest c := by
        unfold pdFind
        rw [List.find?_cons_of_neg _ (by simpa using hc)]
      have hnodup' : (rest.map Prod.fst).Nodup := by
        simp only [List.map_cons, List.nodup_cons] at hnodup
        exact hnodup.2
      have hrec := ih hnodup' hfind'
      unfold pdSet at hrec ⊢
      rw [if_pos (by rw [hfindcons, hfind']; rfl)]
      rw [if_pos (by rw [hfind']; rfl)] at hrec
      simp only [List.map_cons, if_neg hc]
      unfold pdDensity at hrec ⊢
      simp only [List.map_cons, List.sum_cons]
      omega


/-- Helper: find? over the in-place map of pdSet ignores the rewritten key
when looking for another key. -/
theorem find_map_set (d : PDict) (c c' : Coord) (L : List Particle)
    (hne : c' ≠ c) :
    List.find? (fun e => decide (e.1 = c')) (d.map fun e => if e.1 = c then (c, L) else e) =
    List.find? (fun e => decide (e.1 = c')) d := by
  induction d with
  | nil => rfl
  | cons e rest ih =>
    by_cases hc : e.1 = c
    · simp only [List.map_cons, if_pos hc]
      rw [List.find?_cons_of_neg _ (by simp [Ne.symm hne]),
        List.find?_cons_of_neg _ (by simp [hc, Ne.symm hne])]
      exact ih
    · simp only [List.map_cons, if_neg hc]
      by_cases hd : e.1 = c'
      · rw [List.find?_cons_of_pos _ (by simp [hd]),
          List.find?_cons_of_pos _ (by simp [hd])]
      · rw [List.find?_cons_of_neg _ (by simp [hd]),
          List.find?_cons_of_neg _ (by simp [hd])]
        exact ih

/-- Helper: pdSet at one key does not disturb lookups at other keys. -/
theorem pdSet_frame (d : PDict) (c c' : Coord) (L : List Particle)
    (hne : c' ≠ c) : pdFind (pdSet d c L) c' = pdFind d c' := by
  unfold pdSet
  split
  · unfold pdFind
    rw [find_map_set d c c' L hne]
  · unfold pdFind
    rw [List.find?_append]
    have : List.find? (fun e => decide (e.1 = c')) [(c, L)] = none := by
      simp [Ne.symm hne]
    rw [this]
    simp

/-- Helper: keys after pdSet: unchanged when the key was present, extended by
the key otherwise. -/
theorem pdSet_keys (d : PDict) (c : Coord) (L : List Particle) :
    ((pdSet d c L).map Prod.fst = d.map Prod.fst ∧ (pdFind d c).isSome) ∨
    ((pdSet d c L).map Prod.fst = d.map Prod.fst ++ [c] ∧ pdFind d c = none) := by
  unfold pdSet
  split
  · left
    refine ⟨?_, by assumption⟩
    rw [List.map_map]
    apply List.map_congr_left
    intro e _
    by_cases hc : e.1 = c
    · simp [hc]
    · simp [hc]
  · right
    rename_i h
    refine ⟨by simp, ?_⟩
    cases hf : pdFind d c
    · rfl
    · rw [hf] at h
      simp at h

/-- Helper: total density of an appended singleton entry. -/
theorem pdDensity_append (d : PDict) (t : Coord) (p : Particle) :
    pdDensity (d ++ [(t, [p])]) = pdDensity d + p.density := by
  unfold pdDensity
  simp

/-- Helper: one destination step of the distribution loop adds exactly per to
the dict total when the merge cap is not hit there, keeps other keys
untouched, and keeps the keys duplicate-free. -/
theorem spreadStep_spec (self : Particle) (per : Int) (d : PDict) (t : Coord)
    (hper : per ≠ 0) (hnodup : (d.map Prod.fst).Nodup)
    (hcap : ∀ q, (pdFind d t).bind (firstSameType self.particle_type) = some q →
      q.density + per < self.density) :
    pdDensity (spreadStep self per d t) = pdDensity d + per ∧
    (∀ c, c ≠ t → pdFind (spreadStep self per d t) c = pdFind d c) ∧
    ((spreadStep self per d t).map Prod.fst).Nodup := by
  cases hf : pdFind d t with
  | none =>
    simp only [spreadStep, hf]
    refine ⟨?_, ?_, ?_⟩
    · rw [pdDensity_append]
      unfold Particle.spawnAt
      simp [hper]
    · intro c hc
      unfold pdFind
      rw [List.find?_append]
      have : List.find? (fun e => decide (e.1 = c)) [(t, [self.spawnAt t per])] = none := by
        simp [Ne.symm hc]
      rw [this]
      simp [pdFind]
    · have ht : t ∉ d.map Prod.fst := by
        rw [pdFind_eq_none] at hf
        intro hmem
        obtain ⟨e, he, hk⟩ := List.mem_map.mp hmem
        exact hf e he hk
      simp only [List.map_append, List.map_cons, List.map_nil]
      rw [List.nodup_append]
      exact ⟨hnodup, List.nodup_singleton t, by simpa using ht⟩
  | some pl =>
    cases hfst : firstSameType self.particle_type pl with
    | none =>
      simp only [spreadStep, hf, spreadIntoList_none self per pl hfst,
        Bool.false_eq_true, if_false]
      refine ⟨?_, ?_, ?_⟩
      · rw [pdSet_found_density d t pl _ hnodup hf]
        unfold Particle.spawnAt
        simp [hper]
        ring
      · intro c hc
        exact pdSet_frame d t c _ hc
      · rcases pdSet_keys d t (pl ++ [self.spawnAt t per]) with ⟨hk, _⟩ | ⟨_, hnone⟩
        · rw [hk]; exact hnodup
        · rw [hnone] at hf; cases hf
    | some q =>
      have hcapq := hcap q (by rw [hf]; simpa using hfst)
      obtain ⟨hfound, hsum⟩ := spreadIntoList_some self per pl q hfst hcapq
      rcases hsil : spreadIntoList self per pl with ⟨pl', found⟩
      rw [hsil] at hfound hsum
      simp only at hfound hsum
      subst hfound
      simp only [spreadStep, hf, hsil, if_true]
      refine ⟨?_, ?_, ?_⟩
      · rw [pdSet_found_density d t pl pl' hnodup hf, hsum]
        ring
      · intro c hc
        exact pdSet_frame d t c _ hc
      · rcases pdSet_keys d t pl' with ⟨hk, _⟩ | ⟨_, hnone⟩
        · rw [hk]; exact hnodup
        · rw [hnone] at hf; cases hf

/-- Helper: folding the distribution loop over duplicate-free destinations
adds per for every destination when no cap is hit. -/
theorem spreadFold_spec (self : Particle) (per : Int) (hper : per ≠ 0) :
    ∀ (ts : List Coord) (d : PDict), ts.Nodup → (d.map Prod.fst).Nodup →
    (∀ t ∈ ts, ∀ q, (pdFind d t).bind (firstSameType self.particle_type) = some q →
      q.density + per < self.density) →
    pdDensity (ts.foldl (spreadStep self per) d) =
      pdDensity d + (ts.length : Int) * per := by
  intro ts
  induction ts with
  | nil => intro d _ _ _; simp
  | cons t rest ih =>
    intro d hts hnodup hcap
    obtain ⟨hsum, hframe, hnodup'⟩ := spreadStep_spec self per d t hper hnodup
      (hcap t (by simp))
    rw [List.foldl_cons]
    rw [ih (spreadStep self per d t) (by simpa using hts.of_cons) hnodup' ?_]
    · rw [hsum]
      simp only [List.length_cons]
      push_cast
      ring
    · intro t' ht' q hq
      have hne : t' ≠ t := by
        intro heq
        subst heq
        exact (List.nodup_cons.mp hts).1 ht'
      rw [hframe t' hne] at hq
      exact hcap t' (by simp [ht']) q hq

/-- Helper: the in-plane neighbour list never repeats a coordinate. -/
theorem get_neighbor_tiles_nodup (g : GameMap) (z x y : Int) :
    (g.get_neighbor_tiles z x y).Nodup := by
  unfold GameMap.get_neighbor_tiles
  rw [List.nodup_flatMap]
  constructor
  · intro i _
    apply List.Nodup.filterMap
    · intro a a' b hb hb'
      simp only [Option.mem_def] at hb hb'
      split at hb
      · split at hb'
        · injection hb with hb1
          injection hb' with hb2
          rw [← hb2] at hb1
          simp only [Prod.mk.injEq] at hb1
          omega
        · cases hb'
      · cases hb
    · refine List.Nodup.cons ?_ (List.Nodup.cons ?_ (List.nodup_singleton _)) <;>
        simp <;> omega
  · have key : ∀ i i' : Int, i ≠ i' →
        (List.Disjoint on fun i => List.filterMap
          (fun j => if ¬(i = x ∧ j = y) ∧ g.in_bounds_no_z i j
            then some (z, i, j) else none) [y - 1, y, y + 1]) i i' := by
      intro i i' hne
      rw [Function.onFun, List.disjoint_left]
      intro a ha ha'
      simp only [List.mem_filterMap] at ha ha'
      obtain ⟨j, _, hj⟩ := ha
      obtain ⟨j', _, hj'⟩ := ha'
      split at hj
      · split at hj'
        · injection hj with h1
          injection hj' with h2
          rw [← h2] at h1
          simp only [Prod.mk.injEq] at h1
          omega
        · cases hj'
      · cases hj
    have hne : List.Pairwise (fun a b : Int => a ≠ b) [x - 1, x, x + 1] := by
      refine List.Pairwise.cons ?_ (List.Pairwise.cons ?_
        (List.Pairwise.cons ?_ List.Pairwise.nil))
      · intro b hb
        simp at hb
        rcases hb with h | h <;> omega
      · intro b hb
        simp at hb
        omega
      · intro b hb
        simp at hb
    exact hne.imp (fun h => key _ _ h)

/-- Helper: the destination list of a spread event never repeats a voxel: the
in-plane part is duplicate-free and the optional vertical target lives on a
different z level. -/
theorem available_tiles_nodup (g : GameMap) (p : Particle) :
    (Particle.available_tiles g p).Nodup := by
  unfold Particle.available_tiles
  have hbase : ((g.get_neighbor_tiles p.z p.x p.y).filter fun n =>
      decide (g.tiles n ≠ TileType.wall ∧ g.tiles n ≠ TileType.door)).Nodup :=
    (get_neighbor_tiles_nodup g p.z p.x p.y).filter _
  have hzmem : ∀ c ∈ (g.get_neighbor_tiles p.z p.x p.y).filter fun n =>
      decide (g.tiles n ≠ TileType.wall ∧ g.tiles n ≠ TileType.door), c.1 = p.z := by
    intro c hc
    exact (mem_get_neighbor_tiles g p.z p.x p.y c (List.mem_of_mem_filter hc)).1
  split
  · rw [List.nodup_append]
    refine ⟨hbase, List.nodup_singleton _, ?_⟩
    rw [List.disjoint_left]
    intro a ha ha'
    have h1 := hzmem a ha
    simp only [List.mem_singleton] at ha'
    rw [ha'] at h1
    simp only at h1
    omega
  · split
    · rw [List.nodup_append]
      refine ⟨hbase, List.nodup_singleton _, ?_⟩
      rw [List.disjoint_left]
      intro a ha ha'
      have h1 := hzmem a ha
      simp only [List.mem_singleton] at ha'
      rw [ha'] at h1
      simp only at h1
      omega
    · exact hbase

/-- Helper: the shape of Particle.spread when the particle survives its decay
tick, the spread counter fires, and at least one destination is open. -/
theorem spread_event_eq (p : Particle) (g : GameMap) (dict : PDict)
    (hd : 0 < p.density - p.density_decay)
    (hrate : p.spread_rate ≠ 0)
    (hval : p.spread_value + 1 ≥ p.spread_rate)
    (havail : (Particle.available_tiles g p).length ≠ 0) :
    p.spread g dict =
      if Int.tdiv ⌊((p.density - p.density_decay : Int) : ℚ) * p.spread_decay⌋
          ((Particle.available_tiles g p).length : Int) > 0
      then SpreadResult.ok
        { p with density := ⌊((p.density - p.density_decay : Int) : ℚ) *
            (1 - p.spread_decay)⌋, spread_value := 0 }
        ((Particle.available_tiles g p).foldl
          (spreadStep
            { p with density := ⌊((p.density - p.density_decay : Int) : ℚ) *
                (1 - p.spread_decay)⌋, spread_value := 0 }
            (Int.tdiv ⌊((p.density - p.density_decay : Int) : ℚ) * p.spread_decay⌋
              ((Particle.available_tiles g p).length : Int))) dict)
      else SpreadResult.ok
        { p with density := ⌊((p.density - p.density_decay : Int) : ℚ) *
            (1 - p.spread_decay)⌋, spread_value := 0 } dict := by
  unfold Particle.spread
  rw [if_neg (by simp only; omega)]
  rw [if_neg (by simp only; exact hrate)]
  rw [if_pos (by simp only; omega)]
  rw [if_neg (by simpa using havail)]
  rfl

/-- Claim C4 (confirmed): particle density conservation for one spread event.
With density_decay = 0, a live particle, a spread fraction in [0,1], a
firing spread counter, at least one open destination, and no destination
hitting the merge cap, the spread event conserves total density up to the
int() floors: the retained density plus everything added to or spawned at
the destinations never exceeds the pre-event density and falls short of it
by at most the number of destinations. -/
theorem spread_density_conservation (p : Particle) (g : GameMap) (dict : PDict)
    (hdd : p.density_decay = 0) (hd : 1 ≤ p.density)
    (h0 : 0 ≤ p.spread_decay) (h1 : p.spread_decay ≤ 1)
    (hrate : p.spread_rate ≠ 0) (hval : p.spread_value + 1 ≥ p.spread_rate)
    (hkeys : (dict.map Prod.fst).Nodup)
    (havail : Particle.available_tiles g p ≠ [])
    (hcap : ∀ t ∈ Particle.available_tiles g p, ∀ q,
      (pdFind dict t).bind (firstSameType p.particle_type) = some q →
      q.density + Int.tdiv ⌊(p.density : ℚ) * p.spread_decay⌋
        ((Particle.available_tiles g p).length : Int) <
        ⌊(p.density : ℚ) * (1 - p.spread_decay)⌋) :
    ∃ p' dict', p.spread g dict = SpreadResult.ok p' dict' ∧
      0 ≤ p.density - (p'.density + (pdDensity dict' - pdDensity dict)) ∧
      p.density - (p'.density + (pdDensity dict' - pdDensity dict)) ≤
        ((Particle.available_tiles g p).length : Int) := by
  have hlen : (Particle.available_tiles g p).length ≠ 0 := by
    intro h
    exact havail (List.length_eq_zero.mp h)
  have hlen1 : 1 ≤ (Particle.available_tiles g p).length := by omega
  have heq := spread_event_eq p g dict (by omega) hrate hval hlen
  rw [hdd, sub_zero] at heq
  obtain ⟨hT0, hper0, hupper, hlower⟩ :=
    spread_arith p.density p.spread_decay (Particle.available_tiles g p).length
      hd h0 h1 hlen1
  by_cases hper : Int.tdiv ⌊(p.density : ℚ) * p.spread_decay⌋
      ((Particle.available_tiles g p).length : Int) > 0
  · rw [if_pos hper] at heq hupper hlower
    refine ⟨_, _, heq, ?_, ?_⟩
    all_goals
      rw [spreadFold_spec _ _ (by omega) (Particle.available_tiles g p) dict
        (available_tiles_nodup g p) hkeys (by intro t ht q hq; exact hcap t ht q hq)]
    all_goals
      simp only
      omega
  · rw [if_neg hper] at heq hupper hlower
    refine ⟨_, _, heq, ?_, ?_⟩
    all_goals
      simp only
      omega

/-- Witness for spread_density_conservation: the scenario particle on
spreadMap with an empty particle index satisfies every hypothesis, and the
conservation bounds hold there. -/
theorem spread_density_conservation_witness :
    ∃ p' dict', spreadP.spread spreadMap [] = SpreadResult.ok p' dict' ∧
      0 ≤ spreadP.density - (p'.density + (pdDensity dict' - pdDensity [])) ∧
      spreadP.density - (p'.density + (pdDensity dict' - pdDensity [])) ≤
        ((Particle.available_tiles spreadMap spreadP).length : Int) :=
  spread_density_conservation spreadP spreadMap [] (by decide) (by decide)
    (by norm_num [spreadP]) (by norm_num [spreadP]) (by decide) (by decide)
    (by decide) (by decide)
    (by intro t ht q hq; simp [pdFind] at hq)

/-- Claim C5 (confirmed): the spread scenario.  The particle with density
1000, spread_decay 0.1, spread_rate 1, density_decay 0 and exactly four
open destination voxels (none occupied by a same-type particle) retains 900
and spawns a clone of density 25 at each of the four destinations: 100
distributed in total, 25 each. -/
theorem spread_scenario_1000 :
    spreadP.spread spreadMap [] = SpreadResult.ok
      { spreadP with density := 900, spread_value := 0 }
      [((1, 1, 2), [{ spreadP with z := 1, x := 1, y := 2, density := 25, spread_value := 0 }]),
       ((1, 2, 1), [{ spreadP with z := 1, x := 2, y := 1, density := 25, spread_value := 0 }]),
       ((1, 2, 3), [{ spreadP with z := 1, x := 2, y := 3, density := 25, spread_value := 0 }]),
       ((1, 3, 2), [{ spreadP with z := 1, x := 3, y := 2, density := 25, spread_value := 0 }])] ∧
    pdDensity
      [((1, 1, 2), [{ spreadP with z := 1, x := 1, y := 2, density := 25, spread_value := 0 }]),
       ((1, 2, 1), [{ spreadP with z := 1, x := 2, y := 1, density := 25, spread_value := 0 }]),
       ((1, 2, 3), [{ spreadP with z := 1, x := 2, y := 3, density := 25, spread_value := 0 }]),
       ((1, 3, 2), [{ spreadP with z := 1, x := 3, y := 2, density := 25, spread_value := 0 }])] = 100 ∧
    (900 : Int) + 100 = spreadP.density := by
  refine ⟨?_, by decide, by decide⟩
  have hA : Particle.available_tiles spreadMap spreadP =
      [(1, 1, 2), (1, 2, 1), (1, 2, 3), (1, 3, 2)] := by decide
  have heq := spread_event_eq spreadP spreadMap [] (by decide) (by decide)
    (by decide) (by rw [hA]; decide)
  have hT : ⌊((spreadP.density - spreadP.density_decay : Int) : ℚ) *
      spreadP.spread_decay⌋ = 100 := by
    norm_num [spreadP]
  have hN : ⌊((spreadP.density - spreadP.density_decay : Int) : ℚ) *
      (1 - spreadP.spread_decay)⌋ = 900 := by
    norm_num [spreadP]
  rw [heq, hA, hT, hN]
  rfl

/-! ### Claims C6 (exposure), C7 (collapse fall handling), C9 (fire snapshot) -/

/-- Helper: membership in intRange. -/
theorem mem_intRange (n k : Int) : k ∈ intRange n ↔ 0 ≤ k ∧ k < n := by
  unfold intRange
  simp only [List.mem_map, List.mem_range]
  constructor
  · rintro ⟨m, hm, rfl⟩
    omega
  · intro ⟨h0, hn⟩
    exact ⟨k.toNat, by omega, by omega⟩

/-- Helper: membership in the column enumeration is exactly the x/y bounds. -/
theorem mem_allColumns (g : GameMap) (x y : Int) :
    (x, y) ∈ g.allColumns ↔ g.in_bounds_no_z x y := by
  unfold GameMap.allColumns GameMap.in_bounds_no_z GameMap.in_bounds_x GameMap.in_bounds_y
  simp only [List.mem_flatMap, List.mem_map, mem_intRange]
  constructor
  · rintro ⟨x', hx', y', hy', h⟩
    injection h with h1 h2
    subst h1
    subst h2
    exact ⟨hx', hy'⟩
  · intro ⟨hx, hy⟩
    exact ⟨x, hx, y, hy, rfl⟩

/-- Helper: the natural unfolding of fallToZ, recovering the source's while
loop shape. -/
theorem fallToZ_eq (tiles : Coord → TileType) (x y cur : Int) :
    fallToZ tiles x y cur =
      if 0 ≤ cur then
        if tiles (cur, x, y) ≠ TileType.empty then cur
        else fallToZ tiles x y (cur - 1)
      else cur := by
  unfold fallToZ
  by_cases hc : 0 ≤ cur
  · have h1 : (cur + 1).toNat = (cur - 1 + 1).toNat + 1 := by omega
    rw [h1, if_pos hc, fallToZFuel, if_pos hc]
  · have h0 : (cur + 1).toNat = 0 := by omega
    rw [h0, if_neg hc]
    rfl

/-- Helper: the characterisation of the shared downward scan loop: the result
is the greatest z at or below the start whose tile is non-Empty, or -1 when
the whole span below the start is Empty. -/
theorem fallToZ_spec (tiles : Coord → TileType) (x y : Int) :
    ∀ cur : Int, -1 ≤ cur →
      (-1 ≤ fallToZ tiles x y cur ∧ fallToZ tiles x y cur ≤ cur) ∧
      (0 ≤ fallToZ tiles x y cur →
        tiles (fallToZ tiles x y cur, x, y) ≠ TileType.empty ∧
        ∀ z', fallToZ tiles x y cur < z' → z' ≤ cur →
          tiles (z', x, y) = TileType.empty) ∧
      (fallToZ tiles x y cur = -1 ↔
        ∀ z', 0 ≤ z' → z' ≤ cur → tiles (z', x, y) = TileType.empty) := by
  have H : ∀ n : Nat, ∀ cur : Int, (cur + 1).toNat ≤ n → -1 ≤ cur →
      (-1 ≤ fallToZ tiles x y cur ∧ fallToZ tiles x y cur ≤ cur) ∧
      (0 ≤ fallToZ tiles x y cur →
        tiles (fallToZ tiles x y cur, x, y) ≠ TileType.empty ∧
        ∀ z', fallToZ tiles x y cur < z' → z' ≤ cur →
          tiles (z', x, y) = TileType.empty) ∧
      (fallToZ tiles x y cur = -1 ↔
        ∀ z', 0 ≤ z' → z' ≤ cur → tiles (z', x, y) = TileType.empty) := by
    intro n
    induction n with
    | zero =>
      intro cur hn h1
      have hcur : cur = -1 := by omega
      subst hcur
      rw [fallToZ_eq]
      norm_num
      intro z' h0 h1'
      omega
    | succ n ih =>
      intro cur hn h1
      rw [fallToZ_eq]
      by_cases hc : 0 ≤ cur
      · rw [if_pos hc]
        by_cases ht : tiles (cur, x, y) ≠ TileType.empty
        · rw [if_pos ht]
          refine ⟨⟨by omega, le_refl cur⟩, ?_, ?_⟩
          · intro _
            exact ⟨ht, fun z' hlt hle => by omega⟩
          · constructor
            · intro h
              omega
            · intro hall
              exact absurd (hall cur hc (le_refl cur)) ht
        · rw [if_neg ht]
          push_neg at ht
          obtain ⟨hb, hmid, hiff⟩ := ih (cur - 1) (by omega) (by omega)
          refine ⟨⟨hb.1, by omega⟩, ?_, ?_⟩
          · intro h0
            obtain ⟨hne, hemp⟩ := hmid h0
            refine ⟨hne, fun z' hlt hle => ?_⟩
            by_cases hz : z' ≤ cur - 1
            · exact hemp z' hlt hz
            · have hz' : z' = cur := by omega
              rw [hz']
              exact ht
          · rw [hiff]
            constructor
            · intro hall z' h0 hle
              by_cases hz : z' ≤ cur - 1
              · exact hall z' h0 hz
              · have hz' : z' = cur := by omega
                rw [hz']
                exact ht
            · intro hall z' h0 hle
              exact hall z' h0 (by omega)
      · rw [if_neg hc]
        have hcur : cur = -1 := by omega
        subst hcur
        norm_num
        intro z' h0 h1'
        omega
  intro cur h1
  exact H (cur + 1).toNat cur (le_refl _) h1

/-- Helper: the outside_init fold leaves tiles and depth alone. -/
theorem outside_init_fold_frame (cols : List (Int × Int)) (g : GameMap) :
    (cols.foldl (fun g' xy =>
      { g' with
          outside := updXY g'.outside xy (fallToZ g'.tiles xy.1 xy.2 (g'.depth - 1)) }) g).tiles
      = g.tiles ∧
    (cols.foldl (fun g' xy =>
      { g' with
          outside := updXY g'.outside xy (fallToZ g'.tiles xy.1 xy.2 (g'.depth - 1)) }) g).depth
      = g.depth := by
  induction cols generalizing g with
  | nil => exact ⟨rfl, rfl⟩
  | cons c rest ih => exact ih _

/-- Helper: the outside entry after the outside_init fold. -/
theorem outside_init_fold_value (cols : List (Int × Int)) (g : GameMap) (x y : Int) :
    (cols.foldl (fun g' xy =>
      { g' with
          outside := updXY g'.outside xy (fallToZ g'.tiles xy.1 xy.2 (g'.depth - 1)) }) g).outside
      (x, y) =
    if (x, y) ∈ cols then fallToZ g.tiles x y (g.depth - 1) else g.outside (x, y) := by
  induction cols generalizing g with
  | nil => simp
  | cons c rest ih =>
    obtain ⟨cx, cy⟩ := c
    rw [List.foldl_cons, ih]
    by_cases hmem : (x, y) ∈ rest
    · rw [if_pos hmem, if_pos (by simp [hmem])]
    · by_cases hc : x = cx ∧ y = cy
      · obtain ⟨rfl, rfl⟩ := hc
        rw [if_neg hmem, if_pos (by simp)]
        show updXY g.outside (x, y) (fallToZ g.tiles x y (g.depth - 1)) (x, y) = _
        unfold updXY
        rw [if_pos rfl]
      · rw [if_neg hmem, if_neg ?_]
        · show updXY g.outside (cx, cy) (fallToZ g.tiles cx cy (g.depth - 1)) (x, y) =
            g.outside (x, y)
          unfold updXY
          rw [if_neg (by intro h; injection h with h1 h2; exact hc ⟨h1, h2⟩)]
        · simp only [List.mem_cons]
          rintro (h | h)
          · injection h with h1 h2
            exact hc ⟨h1, h2⟩
          · exact hmem h

/-- Claim C6 (confirmed): after outside_init, every in-bounds column's
exposure entry is the z of the first non-Empty voxel scanning down from the
top of the column (everything strictly above it is Empty), and a column
with no non-Empty voxel gets -1, under which every voxel of the column
counts as at-or-above the exposure depth (full-depth exposure). -/
theorem outside_init_exposure (g : GameMap) (x y : Int)
    (hd : 1 ≤ g.depth) (hxy : g.in_bounds_no_z x y) :
    (-1 ≤ g.outside_init.outside (x, y) ∧
      g.outside_init.outside (x, y) < g.depth) ∧
    (0 ≤ g.outside_init.outside (x, y) →
      g.tiles (g.outside_init.outside (x, y), x, y) ≠ TileType.empty ∧
      ∀ z', g.outside_init.outside (x, y) < z' → z' < g.depth →
        g.tiles (z', x, y) = TileType.empty) ∧
    (g.outside_init.outside (x, y) = -1 ↔
      ∀ z', 0 ≤ z' → z' < g.depth → g.tiles (z', x, y) = TileType.empty) ∧
    (g.outside_init.outside (x, y) = -1 →
      ∀ z', 0 ≤ z' → g.outside_init.outside (x, y) ≤ z') := by
  have hval : g.outside_init.outside (x, y) = fallToZ g.tiles x y (g.depth - 1) := by
    unfold GameMap.outside_init
    rw [outside_init_fold_value]
    rw [if_pos ((mem_allColumns g x y).mpr hxy)]
  obtain ⟨hb, hmid, hiff⟩ := fallToZ_spec g.tiles x y (g.depth - 1) (by omega)
  rw [hval]
  refine ⟨⟨hb.1, by omega⟩, ?_, ?_, ?_⟩
  · intro h0
    obtain ⟨hne, hemp⟩ := hmid h0
    exact ⟨hne, fun z' hlt hlt' => hemp z' hlt (by omega)⟩
  · rw [hiff]
    constructor
    · intro hall z' h0 hlt
      exact hall z' h0 (by omega)
    · intro hall z' h0 hle
      exact hall z' h0 (by omega)
  · intro hm1 z' h0
    omega

/-- Witness for outside_init_exposure: on demoMap, column (1,1) has its first
non-Empty voxel at z = 2 and column (0,0) is empty all the way down. -/
theorem outside_init_exposure_witness :
    demoMap.outside_init.outside (1, 1) = 2 ∧
    demoMap.outside_init.outside (0, 0) = -1 ∧
    (0 ≤ demoMap.outside_init.outside (1, 1) →
      demoMap.tiles (demoMap.outside_init.outside (1, 1), 1, 1) ≠ TileType.empty) ∧
    (demoMap.outside_init.outside (0, 0) = -1 →
      ∀ z', 0 ≤ z' → demoMap.outside_init.outside (0, 0) ≤ z') := by
  have hv1 : demoMap.outside_init.outside (1, 1) = fallToZ demoMap.tiles 1 1 2 := by
    unfold GameMap.outside_init
    rw [outside_init_fold_value, if_pos ((mem_allColumns demoMap 1 1).mpr (by decide)),
      show (demoMap.depth - 1 : Int) = 2 from by decide]
  have hv0 : demoMap.outside_init.outside (0, 0) = fallToZ demoMap.tiles 0 0 2 := by
    unfold GameMap.outside_init
    rw [outside_init_fold_value, if_pos ((mem_allColumns demoMap 0 0).mpr (by decide)),
      show (demoMap.depth - 1 : Int) = 2 from by decide]
  have h2 : fallToZ demoMap.tiles 1 1 2 = 2 := by decide
  have h3 : fallToZ demoMap.tiles 0 0 2 = -1 := by decide
  refine ⟨by rw [hv1, h2], by rw [hv0, h3], ?_, ?_⟩
  · intro h0
    exact ((outside_init_exposure demoMap 1 1 (by decide) (by decide)).2.1 h0).1
  · exact (outside_init_exposure demoMap 0 0 (by decide) (by decide)).2.2.2

/-- Claim C7 (code_bug): the collapse fall handling.  Two actors on demoMap:
the actor at (2,1,2) whose voxel collapsed with a floor recorded at z = 0
falls two levels and takes fall_dmg_mult * 2 = 10 damage, as the claim
says; but the actor at (1,1,1) whose column has no non-Empty voxel below
(landing z = -1, the fall-off-the-grid case) is NOT removed from the entity
set: the Python del a statement only unbinds the loop variable, so the
actor survives untouched, contradicting the claim and the code's own
"# del entity" comment. -/
theorem apply_cavein_dmg_del_keeps_actor :
    (({ demoMap with actors := [⟨1, 1, 1, 30, 2⟩, ⟨2, 1, 2, 30, 2⟩] } :
        GameMap).apply_cavein_dmg [] [((1, 1, 1), -1), ((2, 1, 2), 0)]).actors =
      [⟨1, 1, 1, 30, 2⟩, ⟨0, 1, 2, 20, 2⟩] := by
  decide

/-- Claim C9 (confirmed): fire snapshot uniqueness.  Whenever Fire.handle_turn
reaches the ignition threshold or fire_spread ignites a neighbour, an
existing snapshot entry for the voxel raises Impossible and is never
overwritten, and otherwise the voxel's current light level is stored. -/
theorem fire_snapshot_unique (f : Fire) (g : GameMap) (t : Coord) (ts : List Coord) :
    (f.turn_count ≥ BURNING_POINT →
      ((g.lookupFireOrig (f.z, f.x, f.y)).isSome →
        (f.handle_turn g).2 =
          Except.error "TODO: gamemap.fire_orig_light dict entries should be removed" ∧
        (f.handle_turn g).1.fireOrigLight = g.fireOrigLight) ∧
      (g.lookupFireOrig (f.z, f.x, f.y) = none →
        (f.handle_turn g).1.fireOrigLight =
          g.fireOrigLight ++ [((f.z, f.x, f.y), g.get_light_tile f.z f.x f.y)] ∧
        (f.handle_turn g).2 = Except.ok { f with turn_count := f.turn_count + 1 })) ∧
    ((g.lookupFireOrig t).isSome →
      g.fire_spread_ignite (t :: ts) =
        Except.error "TODO: gamemap.fire_orig_light dict entries should be removed") ∧
    (g.lookupFireOrig t = none →
      g.fire_spread_ignite (t :: ts) =
        GameMap.fire_spread_ignite
          { g with onFire := updC g.onFire t true,
                   fireOrigLight :=
                     g.fireOrigLight ++ [(t, g.get_light_tile t.1 t.2.1 t.2.2)] } ts) := by
  refine ⟨?_, ?_, ?_⟩
  · intro hturn
    constructor
    · intro hsome
      have hsome1 : (({ g with onFire := updC g.onFire (f.z, f.x, f.y) true } :
          GameMap).lookupFireOrig (f.z, f.x, f.y)).isSome = true := hsome
      simp only [Fire.handle_turn]
      rw [if_pos hturn, if_pos hsome1]
      exact ⟨rfl, rfl⟩
    · intro hnone
      have hnone1 : ({ g with onFire := updC g.onFire (f.z, f.x, f.y) true } :
          GameMap).lookupFireOrig (f.z, f.x, f.y) = none := hnone
      simp only [Fire.handle_turn]
      rw [if_pos hturn, if_neg (by rw [hnone1]; simp)]
      exact ⟨rfl, rfl⟩
  · intro hsome
    have hsome1 : (({ g with onFire := updC g.onFire t true } :
        GameMap).lookupFireOrig t).isSome = true := hsome
    simp only [GameMap.fire_spread_ignite]
    rw [if_pos hsome1]
  · intro hnone
    have hnone1 : ({ g with onFire := updC g.onFire t true } :
        GameMap).lookupFireOrig t = none := hnone
    simp only [GameMap.fire_spread_ignite]
    rw [if_neg (by rw [hnone1]; simp)]
    rfl

/-- Witness for fire_snapshot_unique: a fire at (2,1,1) on demoMap at the
burning threshold stores the current light level; with a pre-existing
snapshot it raises instead; and the spread loop behaves the same way. -/
theorem fire_snapshot_unique_witness :
    ((⟨2, 1, 1, 15, 10⟩ : Fire).handle_turn demoMap).1.fireOrigLight =
      [((2, 1, 1), demoMap.get_light_tile 2 1 1)] ∧
    (((⟨2, 1, 1, 15, 10⟩ : Fire).handle_turn
        { demoMap with fireOrigLight := [((2, 1, 1), some 0)] }).2 =
      Except.error "TODO: gamemap.fire_orig_light dict entries should be removed") ∧
    ({ demoMap with fireOrigLight := [((2, 1, 1), some 0)] } :
        GameMap).fire_spread_ignite [(2, 1, 1)] =
      Except.error "TODO: gamemap.fire_orig_light dict entries should be removed" := by
  have h1 := (fire_snapshot_unique ⟨2, 1, 1, 15, 10⟩ demoMap (2, 1, 1) []).1
    (by decide)
  have h2 := (fire_snapshot_unique ⟨2, 1, 1, 15, 10⟩
    { demoMap with fireOrigLight := [((2, 1, 1), some 0)] } (2, 1, 1) []).1
    (by decide)
  have h3 := (fire_snapshot_unique ⟨2, 1, 1, 15, 10⟩
    { demoMap with fireOrigLight := [((2, 1, 1), some 0)] } (2, 1, 1) []).2.1
    (by decide)
  refine ⟨?_, (h2.1 (by decide)).1, h3⟩
  rw [(h1.2 (by decide)).1]
  rfl

/-! ### Claim C1: support-flood helper lemmas -/

/-- Helper: intRange has no duplicates. -/
theorem intRange_nodup (n : Int) : (intRange n).Nodup := by
  unfold intRange
  exact (List.nodup_range _).map fun a b h => by exact_mod_cast h

/-- Helper: membership in the voxel enumeration is exactly in_bounds. -/
theorem mem_allCoords (g : GameMap) (c : Coord) :
    c ∈ g.allCoords ↔ g.in_bounds c.1 c.2.1 c.2.2 := by
  obtain ⟨z, x, y⟩ := c
  unfold GameMap.allCoords GameMap.in_bounds
  unfold GameMap.in_bounds_z GameMap.in_bounds_x GameMap.in_bounds_y
  simp only [List.mem_flatMap, List.mem_map, mem_intRange]
  constructor
  · rintro ⟨z', hz', x', hx', y', hy', h⟩
    injection h with h1 h2
    injection h2 with h2 h3
    subst h1
    subst h2
    subst h3
    exact ⟨hz', hx', hy'⟩
  · intro ⟨hz, hx, hy⟩
    exact ⟨z, hz, x, hx, y, hy, rfl⟩

/-- Helper: the voxel enumeration has no duplicates. -/
theorem allCoords_nodup (g : GameMap) : g.allCoords.Nodup := by
  unfold GameMap.allCoords
  rw [List.nodup_flatMap]
  constructor
  · intro z hz
    rw [List.nodup_flatMap]
    constructor
    · intro x hx
      refine (intRange_nodup _).map fun y1 y2 h => ?_
      injection h with h1 h2
      injection h2 with h2 h3
    · refine List.Pairwise.imp ?_ (intRange_nodup _)
      intro x1 x2 hne a ha1 ha2
      simp only [List.mem_map, mem_intRange] at ha1 ha2
      obtain ⟨y1, hy1, rfl⟩ := ha1
      obtain ⟨y2, hy2, heq⟩ := ha2
      injection heq with e1 e2
      injection e2 with e2 e3
      exact hne e2.symm
  · refine List.Pairwise.imp ?_ (intRange_nodup _)
    intro z1 z2 hne a ha1 ha2
    simp only [List.mem_flatMap, List.mem_map, mem_intRange] at ha1 ha2
    obtain ⟨x1, hx1, y1, hy1, rfl⟩ := ha1
    obtain ⟨x2, hx2, y2, hy2, heq⟩ := ha2
    injection heq with e1 e2
    exact hne e1.symm

/-- Helper: in_bounds only depends on the three dimension fields. -/
theorem in_bounds_congr (g g' : GameMap) (hd : g.depth = g'.depth)
    (hw : g.width = g'.width) (hh : g.height = g'.height) (z x y : Int) :
    g.in_bounds z x y ↔ g'.in_bounds z x y := by
  unfold GameMap.in_bounds GameMap.in_bounds_z GameMap.in_bounds_x
    GameMap.in_bounds_y
  rw [hd, hw, hh]

/-- Helper: is_edge_tile only depends on the three dimension fields. -/
theorem is_edge_tile_congr (g g' : GameMap) (hd : g.depth = g'.depth)
    (hw : g.width = g'.width) (hh : g.height = g'.height) (z x y : Int) :
    g.is_edge_tile z x y ↔ g'.is_edge_tile z x y := by
  unfold GameMap.is_edge_tile
  rw [hd, hw, hh]

/-- Helper: the flood shape only depends on the tiles. -/
theorem supShape_congr (g g' : GameMap) (ht : g.tiles = g'.tiles) (t n : Coord) :
    supShape g t n ↔ supShape g' t n := by
  unfold supShape
  rw [ht]

/-- Helper: supAdj restated through supShape. -/
theorem supAdj_iff (g : GameMap) (t n : Coord) :
    supAdj g t n ↔
      g.in_bounds n.1 n.2.1 n.2.2 ∧ g.tiles n ≠ TileType.empty ∧
        supShape g t n :=
  Iff.rfl

/-- Helper: the support adjacency only depends on tiles and dimensions. -/
theorem supAdj_congr (g g' : GameMap) (ht : g.tiles = g'.tiles)
    (hd : g.depth = g'.depth) (hw : g.width = g'.width)
    (hh : g.height = g'.height) (t n : Coord) :
    supAdj g t n ↔ supAdj g' t n := by
  rw [supAdj_iff, supAdj_iff, ht, in_bounds_congr g g' hd hw hh,
    supShape_congr g g' ht]

/-- Helper: reachable voxels are in bounds and non-Empty. -/
theorem reachable_inb (g : GameMap) (c : Coord) (h : Reachable g c) :
    g.in_bounds c.1 c.2.1 c.2.2 ∧ g.tiles c ≠ TileType.empty := by
  induction h with
  | anchor c hb he hne => exact ⟨hb, hne⟩
  | step t n ht hadj ih => exact ⟨hadj.1, hadj.2.1⟩

/-- Helper: one neighbour visit never changes the support flags, the grid or
the dimensions. -/
theorem caveinNeighborVisit_fst (qs : List Coord) (c n : Coord) (e : Bool)
    (acc : GameMap × List Coord) :
    (caveinNeighborVisit qs c n e acc).1.cavein = acc.1.cavein ∧
    (caveinNeighborVisit qs c n e acc).1.tiles = acc.1.tiles ∧
    (caveinNeighborVisit qs c n e acc).1.depth = acc.1.depth ∧
    (caveinNeighborVisit qs c n e acc).1.width = acc.1.width ∧
    (caveinNeighborVisit qs c n e acc).1.height = acc.1.height := by
  obtain ⟨g', ts⟩ := acc
  unfold caveinNeighborVisit
  repeat' split
  all_goals simp_all

/-- Helper: one neighbour visit collects its candidate exactly under
visitCond. -/
theorem caveinNeighborVisit_snd (qs : List Coord) (c n : Coord) (e : Bool)
    (acc : GameMap × List Coord) :
    (caveinNeighborVisit qs c n e acc).2 =
      if visitCond acc.1 qs n e then acc.2 ++ [n] else acc.2 := by
  obtain ⟨g', ts⟩ := acc
  rcases hv : g'.cavein n with _ | b
  · by_cases h1 : g'.in_bounds n.1 n.2.1 n.2.2 <;>
      by_cases he : e = true <;>
        by_cases hq : n ∈ qs <;>
          simp [caveinNeighborVisit, visitCond, hv, h1, he, hq]
  · cases b
    · have hnc : ¬ visitCond g' qs n e := by
        unfold visitCond
        rw [hv]
        intro h
        exact h.2.1 rfl
      rw [if_neg hnc]
      simp [caveinNeighborVisit, hv]
    · have hnc : ¬ visitCond g' qs n e := by
        unfold visitCond
        rw [hv]
        intro h
        exact h.2.2.2.1 rfl
      rw [if_neg hnc]
      simp only [caveinNeighborVisit, hv]
      repeat' split
      all_goals simp_all

/-- Helper: projection form of the visit frame lemma (cavein). -/
theorem visit_fst_cavein (qs : List Coord) (c n : Coord) (e : Bool)
    (acc : GameMap × List Coord) :
    (caveinNeighborVisit qs c n e acc).1.cavein = acc.1.cavein :=
  (caveinNeighborVisit_fst qs c n e acc).1

/-- Helper: projection form of the visit frame lemma (tiles). -/
theorem visit_fst_tiles (qs : List Coord) (c n : Coord) (e : Bool)
    (acc : GameMap × List Coord) :
    (caveinNeighborVisit qs c n e acc).1.tiles = acc.1.tiles :=
  (caveinNeighborVisit_fst qs c n e acc).2.1

/-- Helper: projection form of the visit frame lemma (depth). -/
theorem visit_fst_depth (qs : List Coord) (c n : Coord) (e : Bool)
    (acc : GameMap × List Coord) :
    (caveinNeighborVisit qs c n e acc).1.depth = acc.1.depth :=
  (caveinNeighborVisit_fst qs c n e acc).2.2.1

/-- Helper: projection form of the visit frame lemma (width). -/
theorem visit_fst_width (qs : List Coord) (c n : Coord) (e : Bool)
    (acc : GameMap × List Coord) :
    (caveinNeighborVisit qs c n e acc).1.width = acc.1.width :=
  (caveinNeighborVisit_fst qs c n e acc).2.2.2.1

/-- Helper: projection form of the visit frame lemma (height). -/
theorem visit_fst_height (qs : List Coord) (c n : Coord) (e : Bool)
    (acc : GameMap × List Coord) :
    (caveinNeighborVisit qs c n e acc).1.height = acc.1.height :=
  (caveinNeighborVisit_fst qs c n e acc).2.2.2.2

/-- Helper: get_cavein_neighbors leaves support flags, grid and dimensions
unchanged (it only edits the dependency graph). -/
theorem get_cavein_neighbors_fst (gg : GameMap) (qs : List Coord) (t : Coord) :
    (gg.get_cavein_neighbors qs t).1.cavein = gg.cavein ∧
    (gg.get_cavein_neighbors qs t).1.tiles = gg.tiles ∧
    (gg.get_cavein_neighbors qs t).1.depth = gg.depth ∧
    (gg.get_cavein_neighbors qs t).1.width = gg.width ∧
    (gg.get_cavein_neighbors qs t).1.height = gg.height := by
  obtain ⟨z, x, y⟩ := t
  unfold GameMap.get_cavein_neighbors
  refine ⟨?_, ?_, ?_, ?_, ?_⟩ <;>
    simp only [visit_fst_cavein, visit_fst_tiles, visit_fst_depth,
      visit_fst_width, visit_fst_height]

/-- Helper: membership after one visit. -/
theorem mem_visit_snd (qs : List Coord) (c n : Coord) (e : Bool)
    (acc : GameMap × List Coord) (m : Coord) :
    m ∈ (caveinNeighborVisit qs c n e acc).2 ↔
      m ∈ acc.2 ∨ (visitCond acc.1 qs n e ∧ m = n) := by
  rw [caveinNeighborVisit_snd]
  by_cases h : visitCond acc.1 qs n e
  · rw [if_pos h]
    simp [h]
  · rw [if_neg h]
    simp [h]

/-- Helper: visitCond only depends on the support flags and dimensions. -/
theorem visitCond_congr (g g' : GameMap) (hc : g.cavein = g'.cavein)
    (hd : g.depth = g'.depth) (hw : g.width = g'.width)
    (hh : g.height = g'.height) (qs : List Coord) (n : Coord) (e : Bool) :
    visitCond g qs n e ↔ visitCond g' qs n e := by
  unfold visitCond
  rw [hc, in_bounds_congr g g' hd hw hh]

/-- Helper: visitCond is invariant under a preceding visit (which only edits
the dependency graph). -/
theorem visitCond_visit (qs' : List Coord) (c' n' : Coord) (e' : Bool)
    (acc : GameMap × List Coord) (qs : List Coord) (n : Coord) (e : Bool) :
    visitCond (caveinNeighborVisit qs' c' n' e' acc).1 qs n e ↔
      visitCond acc.1 qs n e :=
  visitCond_congr _ _ (visit_fst_cavein qs' c' n' e' acc)
    (visit_fst_depth qs' c' n' e' acc) (visit_fst_width qs' c' n' e' acc)
    (visit_fst_height qs' c' n' e' acc) qs n e

/-- Helper: raw membership in the collected neighbour batch, slot by slot. -/
theorem mem_get_cavein_neighbors_raw (gg : GameMap) (qs : List Coord)
    (z x y : Int) (m : Coord) :
    m ∈ (gg.get_cavein_neighbors qs (z, x, y)).2 ↔
      (visitCond gg qs (z, x - 1, y) true ∧ m = (z, x - 1, y)) ∨
      (visitCond gg qs (z, x + 1, y) true ∧ m = (z, x + 1, y)) ∨
      (visitCond gg qs (z, x, y - 1) true ∧ m = (z, x, y - 1)) ∨
      (visitCond gg qs (z, x, y + 1) true ∧ m = (z, x, y + 1)) ∨
      (visitCond gg qs (z - 1, x, y)
          (decide (gg.tiles (z - 1, x, y) = TileType.wall ∨
                   gg.tiles (z - 1, x, y) = TileType.door)) ∧ m = (z - 1, x, y)) ∨
      (visitCond gg qs (z + 1, x, y)
          (decide (gg.tiles (z, x, y) = TileType.wall ∨
                   gg.tiles (z, x, y) = TileType.door)) ∧ m = (z + 1, x, y)) := by
  unfold GameMap.get_cavein_neighbors
  simp only [mem_visit_snd, visitCond_visit, List.not_mem_nil, false_or]
  tauto

/-- Helper: the collected neighbour batch is exactly the supShape neighbours
that are unflagged and unqueued. -/
theorem mem_get_cavein_neighbors (gg : GameMap) (qs : List Coord)
    (z x y : Int) (m : Coord) :
    m ∈ (gg.get_cavein_neighbors qs (z, x, y)).2 ↔
      supShape gg (z, x, y) m ∧ gg.in_bounds m.1 m.2.1 m.2.2 ∧
      gg.cavein m ≠ some false ∧ gg.cavein m ≠ some true ∧ m ∉ qs := by
  rw [mem_get_cavein_neighbors_raw]
  unfold visitCond supShape
  constructor
  · rintro (⟨hc, rfl⟩ | ⟨hc, rfl⟩ | ⟨hc, rfl⟩ | ⟨hc, rfl⟩ | ⟨hc, rfl⟩ | ⟨hc, rfl⟩)
    · exact ⟨Or.inl rfl, hc.1, hc.2.1, hc.2.2.2.1, hc.2.2.2.2⟩
    · exact ⟨Or.inr (Or.inl rfl), hc.1, hc.2.1, hc.2.2.2.1, hc.2.2.2.2⟩
    · exact ⟨Or.inr (Or.inr (Or.inl rfl)), hc.1, hc.2.1, hc.2.2.2.1, hc.2.2.2.2⟩
    · exact ⟨Or.inr (Or.inr (Or.inr (Or.inl rfl))), hc.1, hc.2.1, hc.2.2.2.1,
        hc.2.2.2.2⟩
    · exact ⟨Or.inr (Or.inr (Or.inr (Or.inr (Or.inl
        ⟨rfl, of_decide_eq_true hc.2.2.1⟩)))), hc.1, hc.2.1, hc.2.2.2.1,
        hc.2.2.2.2⟩
    · exact ⟨Or.inr (Or.inr (Or.inr (Or.inr (Or.inr
        ⟨rfl, of_decide_eq_true hc.2.2.1⟩)))), hc.1, hc.2.1, hc.2.2.2.1,
        hc.2.2.2.2⟩
  · rintro ⟨hs, hin, hnf, hnt, hnq⟩
    rcases hs with rfl | rfl | rfl | rfl | ⟨rfl, hw⟩ | ⟨rfl, hw⟩
    · exact Or.inl ⟨⟨hin, hnf, rfl, hnt, hnq⟩, rfl⟩
    · exact Or.inr (Or.inl ⟨⟨hin, hnf, rfl, hnt, hnq⟩, rfl⟩)
    · exact Or.inr (Or.inr (Or.inl ⟨⟨hin, hnf, rfl, hnt, hnq⟩, rfl⟩))
    · exact Or.inr (Or.inr (Or.inr (Or.inl ⟨⟨hin, hnf, rfl, hnt, hnq⟩, rfl⟩)))
    · exact Or.inr (Or.inr (Or.inr (Or.inr (Or.inl
        ⟨⟨hin, hnf, decide_eq_true hw, hnt, hnq⟩, rfl⟩))))
    · exact Or.inr (Or.inr (Or.inr (Or.inr (Or.inr
        ⟨⟨hin, hnf, decide_eq_true hw, hnt, hnq⟩, rfl⟩))))

/-- Helper: one visit extends the batch inside the candidate list. -/
theorem visit_snd_sublist (qs : List Coord) (c n : Coord) (e : Bool)
    (acc : GameMap × List Coord) (L : List Coord) (h : List.Sublist acc.2 L) :
    List.Sublist (caveinNeighborVisit qs c n e acc).2 (L ++ [n]) := by
  rw [caveinNeighborVisit_snd]
  by_cases hc : visitCond acc.1 qs n e
  · rw [if_pos hc]
    exact List.Sublist.append h (List.Sublist.refl [n])
  · rw [if_neg hc]
    exact h.trans (List.sublist_append_left L [n])

/-- Helper: the collected batch is a sublist of the six candidates in slot
order. -/
theorem get_cavein_neighbors_sublist (gg : GameMap) (qs : List Coord)
    (z x y : Int) :
    List.Sublist (gg.get_cavein_neighbors qs (z, x, y)).2
      [(z, x - 1, y), (z, x + 1, y), (z, x, y - 1), (z, x, y + 1),
       (z - 1, x, y), (z + 1, x, y)] := by
  unfold GameMap.get_cavein_neighbors
  exact visit_snd_sublist _ _ _ _ _
    [(z, x - 1, y), (z, x + 1, y), (z, x, y - 1), (z, x, y + 1), (z - 1, x, y)]
    (visit_snd_sublist _ _ _ _ _
      [(z, x - 1, y), (z, x + 1, y), (z, x, y - 1), (z, x, y + 1)]
      (visit_snd_sublist _ _ _ _ _
        [(z, x - 1, y), (z, x + 1, y), (z, x, y - 1)]
        (visit_snd_sublist _ _ _ _ _ [(z, x - 1, y), (z, x + 1, y)]
          (visit_snd_sublist _ _ _ _ _ [(z, x - 1, y)]
            (visit_snd_sublist _ _ _ _ _ [] (List.nil_sublist []))))))

/-- Helper: the six candidate neighbours are pairwise distinct. -/
theorem cand6_nodup (z x y : Int) :
    ([(z, x - 1, y), (z, x + 1, y), (z, x, y - 1), (z, x, y + 1),
      (z - 1, x, y), (z + 1, x, y)] : List Coord).Nodup := by
  simp [Prod.mk.injEq]
  omega

/-- Helper: the collected neighbour batch has no duplicates. -/
theorem get_cavein_neighbors_nodup (gg : GameMap) (qs : List Coord)
    (z x y : Int) :
    (gg.get_cavein_neighbors qs (z, x, y)).2.Nodup :=
  (get_cavein_neighbors_sublist gg qs z x y).nodup (cand6_nodup z x y)

/-- Helper: one queue push only edits the dependency graph and appends the
pushed voxel to queue and q_set. -/
theorem caveinPush_fields (t : Coord) (st : GameMap × List Coord × List Coord)
    (n : Coord) :
    (caveinPush t st n).1.cavein = st.1.cavein ∧
    (caveinPush t st n).1.tiles = st.1.tiles ∧
    (caveinPush t st n).1.depth = st.1.depth ∧
    (caveinPush t st n).1.width = st.1.width ∧
    (caveinPush t st n).1.height = st.1.height ∧
    (caveinPush t st n).2.1 = st.2.1 ++ [n] ∧
    (caveinPush t st n).2.2 = st.2.2 ++ [n] := by
  obtain ⟨g0, q0, s0⟩ := st
  unfold caveinPush
  repeat' split
  all_goals simp_all

/-- Helper: the queue-push fold only edits the dependency graph and appends
the whole batch to queue and q_set. -/
theorem caveinPush_fold (t : Coord) (l : List Coord)
    (st : GameMap × List Coord × List Coord) :
    ((l.foldl (caveinPush t) st).1.cavein = st.1.cavein ∧
     (l.foldl (caveinPush t) st).1.tiles = st.1.tiles ∧
     (l.foldl (caveinPush t) st).1.depth = st.1.depth ∧
     (l.foldl (caveinPush t) st).1.width = st.1.width ∧
     (l.foldl (caveinPush t) st).1.height = st.1.height) ∧
    (l.foldl (caveinPush t) st).2.1 = st.2.1 ++ l ∧
    (l.foldl (caveinPush t) st).2.2 = st.2.2 ++ l := by
  induction l generalizing st with
  | nil => simp
  | cons n rest ih =>
    rw [List.foldl_cons]
    obtain ⟨⟨hc, ht, hd, hw, hh⟩, hq, hs⟩ := ih (caveinPush t st n)
    obtain ⟨pc, pt, pd, pw, ph, pq, ps⟩ := caveinPush_fields t st n
    refine ⟨⟨hc.trans pc, ht.trans pt, hd.trans pd, hw.trans pw, hh.trans ph⟩,
      ?_, ?_⟩
    · rw [hq, pq, List.append_assoc]
      rfl
    · rw [hs, ps, List.append_assoc]
      rfl

/-- Helper: with an empty queue the BFS loop is the identity and the
invariant directly yields the output facts. -/
theorem cavein_bfs_nil (g0 gg : GameMap) (qs : List Coord) (fuel : Nat)
    (hinv : BfsInv g0 gg [] qs) :
    BfsOut g0 (GameMap.cavein_bfs fuel gg [] qs) ∧
    (∀ c, gg.cavein c = some true →
      (GameMap.cavein_bfs fuel gg [] qs).cavein c = some true) ∧
    (∀ c ∈ ([] : List Coord),
      (GameMap.cavein_bfs fuel gg [] qs).cavein c = some true) := by
  have hr : GameMap.cavein_bfs fuel gg [] qs = gg := by
    cases fuel <;> rfl
  rw [hr]
  refine ⟨⟨hinv.tiles_eq, hinv.depth_eq, hinv.width_eq, hinv.height_eq,
    hinv.false_iff, hinv.true_sound, ?_⟩, fun c hc => hc, ?_⟩
  · intro c hc n hadj
    rcases hinv.closure c hc (List.not_mem_nil c) n hadj with h | h
    · exact h
    · exact absurd h (List.not_mem_nil n)
  · intro c hc
    exact absurd hc (List.not_mem_nil c)

/-- Helper: correctness of the cavein_init BFS loop.  Given the invariant and
fuel at least the measure, the returned grid keeps the grid/dimensions, its
False flags still mark exactly the in-bounds Empty voxels, its True flags
are sound for reachability, and its True set is closed under the support
adjacency; True flags persist and every queued voxel ends True. -/
theorem cavein_bfs_correct (g0 : GameMap) : ∀ (fuel : Nat) (gg : GameMap)
    (q qs : List Coord), BfsInv g0 gg q qs →
    bfsMeasure g0 gg q qs ≤ fuel →
    BfsOut g0 (GameMap.cavein_bfs fuel gg q qs) ∧
    (∀ c, gg.cavein c = some true →
      (GameMap.cavein_bfs fuel gg q qs).cavein c = some true) ∧
    (∀ c ∈ q, (GameMap.cavein_bfs fuel gg q qs).cavein c = some true) := by
  intro fuel
  induction fuel with
  | zero =>
    intro gg q qs hinv hfuel
    cases q with
    | nil => exact cavein_bfs_nil g0 gg qs 0 hinv
    | cons t q' =>
      exfalso
      unfold bfsMeasure at hfuel
      simp only [List.length_cons] at hfuel
      omega
  | succ fuel ih =>
    intro gg q qs hinv hfuel
    cases q with
    | nil => exact cavein_bfs_nil g0 gg qs (fuel + 1) hinv
    | cons t q' =>
      obtain ⟨tz, tx, ty⟩ := t
      obtain ⟨htb, htne, htr⟩ :=
        hinv.queue_sound (tz, tx, ty) (List.mem_cons_self _ _)
      have htq' : (tz, tx, ty) ∉ q' := (List.nodup_cons.mp hinv.queue_nodup).1
      have hq'nd : q'.Nodup := (List.nodup_cons.mp hinv.queue_nodup).2
      set qset1 := qs.erase (tz, tx, ty) with hqset1
      set g1 := { gg with cavein := updC gg.cavein (tz, tx, ty) (some true) }
        with hg1def
      set pr := g1.get_cavein_neighbors qset1 (tz, tx, ty) with hprdef
      set ST := pr.2.foldl (caveinPush (tz, tx, ty)) (pr.1, q', qset1)
        with hSTdef
      have heq : GameMap.cavein_bfs (fuel + 1) gg ((tz, tx, ty) :: q') qs =
          GameMap.cavein_bfs fuel ST.1 ST.2.1 ST.2.2 := rfl
      obtain ⟨prc, prt, prd, prw, prh⟩ := get_cavein_neighbors_fst g1 qset1
        (tz, tx, ty)
      obtain ⟨⟨sc, st', sd, sw, sh⟩, sq, ss⟩ :=
        caveinPush_fold (tz, tx, ty) pr.2 (pr.1, q', qset1)
      have hSc : ST.1.cavein = g1.cavein := sc.trans prc
      have hSt : ST.1.tiles = g0.tiles :=
        (st'.trans prt).trans hinv.tiles_eq
      have hSd : ST.1.depth = g0.depth := (sd.trans prd).trans hinv.depth_eq
      have hSw : ST.1.width = g0.width := (sw.trans prw).trans hinv.width_eq
      have hSh : ST.1.height = g0.height :=
        (sh.trans prh).trans hinv.height_eq
      have hq2 : ST.2.1 = q' ++ pr.2 := sq
      have hs2 : ST.2.2 = qset1 ++ pr.2 := ss
      have hg1c : ∀ c, g1.cavein c =
          if c = (tz, tx, ty) then some true else gg.cavein c :=
        fun c => rfl
      have hg1t : g1.cavein (tz, tx, ty) = some true := by
        rw [hg1c, if_pos rfl]
      have hg1d : g1.depth = g0.depth := hinv.depth_eq
      have hg1w : g1.width = g0.width := hinv.width_eq
      have hg1h : g1.height = g0.height := hinv.height_eq
      have hg1ti : g1.tiles = g0.tiles := hinv.tiles_eq
      have hmono1 : ∀ c, gg.cavein c = some true →
          g1.cavein c = some true := by
        intro c hc
        rw [hg1c c]
        by_cases h : c = (tz, tx, ty)
        · rw [if_pos h]
        · rw [if_neg h]
          exact hc
      have hmem : ∀ m, m ∈ pr.2 ↔
          supShape g1 (tz, tx, ty) m ∧ g1.in_bounds m.1 m.2.1 m.2.2 ∧
          g1.cavein m ≠ some false ∧ g1.cavein m ≠ some true ∧
          m ∉ qset1 := by
        intro m
        rw [hprdef]
        exact mem_get_cavein_neighbors g1 qset1 tz tx ty m
      have hprnd : pr.2.Nodup := by
        rw [hprdef]
        exact get_cavein_neighbors_nodup g1 qset1 tz tx ty
      have hmemt : ∀ m ∈ pr.2, m ≠ (tz, tx, ty) := by
        intro m hm h
        exact ((hmem m).mp hm).2.2.2.1 (h ▸ hg1t)
      have hmemgg : ∀ m ∈ pr.2, gg.cavein m = none ∧ m ∉ qs ∧
          g0.in_bounds m.1 m.2.1 m.2.2 ∧ g0.tiles m ≠ TileType.empty ∧
          supShape g0 (tz, tx, ty) m := by
        intro m hm
        obtain ⟨hshape, hinb1, hnf, hnt, hnq⟩ := (hmem m).mp hm
        have hmt : m ≠ (tz, tx, ty) := hmemt m hm
        rw [hg1c m, if_neg hmt] at hnf hnt
        have hbm : g0.in_bounds m.1 m.2.1 m.2.2 :=
          (in_bounds_congr g1 g0 hg1d hg1w hg1h _ _ _).mp hinb1
        have hnqs : m ∉ qs := by
          intro h
          exact hnq (List.mem_erase_of_ne hmt |>.mpr h)
        have hnone : gg.cavein m = none := by
          rcases h : gg.cavein m with _ | b
          · rfl
          · cases b
            · exact absurd h hnf
            · exact absurd h hnt
        have hne : g0.tiles m ≠ TileType.empty := by
          intro hemp
          exact hnf ((hinv.false_iff m).mpr ⟨hbm, hemp⟩)
        exact ⟨hnone, hnqs, hbm, hne,
          (supShape_congr g1 g0 hg1ti _ _).mp hshape⟩
      have hsync1 : ∀ c, c ∈ qset1 ↔ c ∈ q' := by
        intro c
        rw [hqset1, hinv.qs_nodup.mem_erase_iff, hinv.sync c]
        constructor
        · rintro ⟨hne, hm⟩
          rcases List.mem_cons.mp hm with h | h
          · exact absurd h hne
          · exact h
        · intro h
          refine ⟨fun hc => htq' (hc ▸ h), List.mem_cons_of_mem _ h⟩
      have hinv2 : BfsInv g0 ST.1 (q' ++ pr.2) (qset1 ++ pr.2) := by
        refine ⟨hSt, hSd, hSw, hSh, ?_, ?_, ?_, ?_, ?_, ?_, ?_⟩
        · intro c
          rw [hSc, hg1c c]
          by_cases hct : c = (tz, tx, ty)
          · subst hct
            rw [if_pos rfl]
            constructor
            · intro h
              exact absurd h (by simp)
            · intro ⟨_, hemp⟩
              exact absurd hemp htne
          · rw [if_neg hct]
            exact hinv.false_iff c
        · intro c hc
          rw [hSc, hg1c c] at hc
          by_cases hct : c = (tz, tx, ty)
          · subst hct
            exact ⟨htb, htne, htr⟩
          · rw [if_neg hct] at hc
            exact hinv.true_sound c hc
        · intro c hc
          rcases List.mem_append.mp hc with h | h
          · exact hinv.queue_sound c (List.mem_cons_of_mem _ h)
          · obtain ⟨_, _, hbm, hne, hshape⟩ := hmemgg c h
            exact ⟨hbm, hne, Reachable.step _ _ htr ⟨hbm, hne, hshape⟩⟩
        · refine hq'nd.append hprnd ?_
          intro a ha hb
          exact ((hmem a).mp hb).2.2.2.2 ((hsync1 a).mpr ha)
        · refine (hinv.qs_nodup.erase _).append hprnd ?_
          intro a ha hb
          exact ((hmem a).mp hb).2.2.2.2 ha
        · intro c
          rw [List.mem_append, List.mem_append, hsync1 c]
        · intro c hc hcq n hadj
          rw [hSc] at hc ⊢
          by_cases hct : c = (tz, tx, ty)
          · subst hct
            by_cases hnt2 : g1.cavein n = some true
            · exact Or.inl hnt2
            · by_cases hnq2 : n ∈ qset1
              · exact Or.inr (List.mem_append.mpr
                  (Or.inl ((hsync1 n).mp hnq2)))
              · refine Or.inr (List.mem_append.mpr (Or.inr ?_))
                have hnt3 : n ≠ (tz, tx, ty) := by
                  intro h
                  exact hnt2 (h ▸ hg1t)
                refine (hmem n).mpr ⟨?_, ?_, ?_, hnt2, hnq2⟩
                · exact (supShape_congr g1 g0 hg1ti _ _).mpr hadj.2.2
                · exact (in_bounds_congr g1 g0 hg1d hg1w hg1h _ _ _).mpr
                    hadj.1
                · rw [hg1c n, if_neg hnt3]
                  intro hf
                  exact hadj.2.1 ((hinv.false_iff n).mp hf).2
          · have hgc : gg.cavein c = some true := by
              rw [hg1c c, if_neg hct] at hc
              exact hc
            have hcq' : c ∉ q' := fun h =>
              hcq (List.mem_append.mpr (Or.inl h))
            have hcold : c ∉ (tz, tx, ty) :: q' := by
              intro h
              rcases List.mem_cons.mp h with h | h
              · exact hct h
              · exact hcq' h
            rcases hinv.closure c hgc hcold n hadj with h | h
            · exact Or.inl (hmono1 n h)
            · rcases List.mem_cons.mp h with h | h
              · exact Or.inl (h ▸ hg1t)
              · exact Or.inr (List.mem_append.mpr (Or.inl h))
      have hsub : pr.2.toFinset ⊆
          (g0.allCoords.toFinset).filter
            (fun c => gg.cavein c = none ∧ c ∉ qs) := by
        intro m hm
        rw [List.mem_toFinset] at hm
        obtain ⟨hnone, hnqs, hbm, _, _⟩ := hmemgg m hm
        rw [Finset.mem_filter, List.mem_toFinset, mem_allCoords]
        exact ⟨hbm, hnone, hnqs⟩
      have hBA : (g0.allCoords.toFinset).filter
            (fun c => ST.1.cavein c = none ∧ c ∉ qset1 ++ pr.2) =
          ((g0.allCoords.toFinset).filter
            (fun c => gg.cavein c = none ∧ c ∉ qs)) \ pr.2.toFinset := by
        ext m
        simp only [Finset.mem_filter, Finset.mem_sdiff, List.mem_toFinset,
          List.mem_append, not_or]
        constructor
        · rintro ⟨hall, hnone, hnq1, hnpr⟩
          rw [hSc, hg1c m] at hnone
          by_cases hmt : m = (tz, tx, ty)
          · rw [if_pos hmt] at hnone
            exact absurd hnone (by simp)
          · rw [if_neg hmt] at hnone
            have hnqs : m ∉ qs := by
              intro h
              exact hnq1 (List.mem_erase_of_ne hmt |>.mpr h)
            exact ⟨⟨hall, hnone, hnqs⟩, hnpr⟩
        · rintro ⟨⟨hall, hnone, hnqs⟩, hnpr⟩
          have hmt : m ≠ (tz, tx, ty) := by
            intro h
            exact hnqs ((hinv.sync m).mpr (h ▸ List.mem_cons_self _ _))
          refine ⟨hall, ?_, ?_, hnpr⟩
          · rw [hSc, hg1c m, if_neg hmt]
            exact hnone
          · intro h
            exact hnqs (List.mem_of_mem_erase h)
      have hM : bfsMeasure g0 ST.1 (q' ++ pr.2) (qset1 ++ pr.2) ≤ fuel := by
        unfold bfsMeasure at hfuel ⊢
        rw [hBA, Finset.card_sdiff hsub, List.length_append]
        have hple : pr.2.length ≤
            ((g0.allCoords.toFinset).filter
              (fun c => gg.cavein c = none ∧ c ∉ qs)).card := by
          rw [← List.toFinset_card_of_nodup hprnd]
          exact Finset.card_le_card hsub
        simp only [List.length_cons] at hfuel
        rw [List.toFinset_card_of_nodup hprnd]
        omega
      obtain ⟨hout, hmono, hqtrue⟩ := ih ST.1 (q' ++ pr.2) (qset1 ++ pr.2)
        hinv2 hM
      rw [heq, hq2, hs2]
      refine ⟨hout, ?_, ?_⟩
      · intro c hc
        have hc1 : ST.1.cavein c = some true := by
          rw [hSc]
          exact hmono1 c hc
        exact hmono c hc1
      · intro c hc
        rcases List.mem_cons.mp hc with h | h
        · refine hmono c ?_
          rw [hSc]
          exact h ▸ hg1t
        · exact hqtrue c (List.mem_append.mpr (Or.inl h))

/-- Helper: one scan step never changes the grid or the dimensions. -/
theorem caveinScanStep_frame (st : GameMap × List Coord × List Coord)
    (c : Coord) :
    (caveinScanStep st c).1.tiles = st.1.tiles ∧
    (caveinScanStep st c).1.depth = st.1.depth ∧
    (caveinScanStep st c).1.width = st.1.width ∧
    (caveinScanStep st c).1.height = st.1.height := by
  obtain ⟨g', q, qs⟩ := st
  unfold caveinScanStep
  repeat' split
  all_goals simp_all

/-- Helper: the support flag one scan step leaves at each voxel. -/
theorem caveinScanStep_cavein (st : GameMap × List Coord × List Coord)
    (c c' : Coord) :
    (caveinScanStep st c).1.cavein c' =
      if c' = c then
        (if st.1.tiles c = TileType.empty then some false
         else if st.1.is_edge_tile c.1 c.2.1 c.2.2 then some true
         else st.1.cavein c')
      else st.1.cavein c' := by
  obtain ⟨g', q, qs⟩ := st
  unfold caveinScanStep GameMap.is_edge_tile updC
  by_cases h1 : g'.tiles c = TileType.empty <;>
    by_cases h2 : c.1 = 0 ∨ c.1 = g'.depth - 1 ∨ c.2.1 = 0 ∨
      c.2.1 = g'.width - 1 ∨ c.2.2 = 0 ∨ c.2.2 = g'.height - 1 <;>
      by_cases h3 : c' = c <;>
        simp [h1, h2, h3]

/-- Helper: the queue and q_set one scan step leaves. -/
theorem caveinScanStep_queue (st : GameMap × List Coord × List Coord)
    (c : Coord) :
    (caveinScanStep st c).2.1 =
      (if st.1.tiles c ≠ TileType.empty ∧ st.1.is_edge_tile c.1 c.2.1 c.2.2
        then st.2.1 ++ [c] else st.2.1) ∧
    (caveinScanStep st c).2.2 =
      (if st.1.tiles c ≠ TileType.empty ∧ st.1.is_edge_tile c.1 c.2.1 c.2.2
        then st.2.2 ++ [c] else st.2.2) := by
  obtain ⟨g', q, qs⟩ := st
  unfold caveinScanStep GameMap.is_edge_tile
  by_cases h1 : g'.tiles c = TileType.empty <;>
    by_cases h2 : c.1 = 0 ∨ c.1 = g'.depth - 1 ∨ c.2.1 = 0 ∨
      c.2.1 = g'.width - 1 ∨ c.2.2 = 0 ∨ c.2.2 = g'.height - 1 <;>
      simp [h1, h2]

/-- Helper: the scan fold, relative to a state whose grid and dimensions
already agree with g: Empty voxels of the scanned span get flag False,
non-Empty boundary voxels get True and are appended (in span order) to the
queue and the q_set, and all other voxels keep their flag. -/
theorem caveinScan_fold (g : GameMap) (l : List Coord) :
    ∀ st : GameMap × List Coord × List Coord,
    st.1.tiles = g.tiles → st.1.depth = g.depth → st.1.width = g.width →
    st.1.height = g.height →
    (l.foldl caveinScanStep st).1.tiles = g.tiles ∧
    (l.foldl caveinScanStep st).1.depth = g.depth ∧
    (l.foldl caveinScanStep st).1.width = g.width ∧
    (l.foldl caveinScanStep st).1.height = g.height ∧
    (∀ c ∈ l, g.tiles c = TileType.empty →
      (l.foldl caveinScanStep st).1.cavein c = some false) ∧
    (∀ c ∈ l, g.tiles c ≠ TileType.empty →
      g.is_edge_tile c.1 c.2.1 c.2.2 →
      (l.foldl caveinScanStep st).1.cavein c = some true) ∧
    (∀ c, (c ∉ l ∨ (g.tiles c ≠ TileType.empty ∧
        ¬ g.is_edge_tile c.1 c.2.1 c.2.2)) →
      (l.foldl caveinScanStep st).1.cavein c = st.1.cavein c) ∧
    (l.foldl caveinScanStep st).2.1 = st.2.1 ++
      l.filter (fun c => decide (g.tiles c ≠ TileType.empty ∧
        g.is_edge_tile c.1 c.2.1 c.2.2)) ∧
    (l.foldl caveinScanStep st).2.2 = st.2.2 ++
      l.filter (fun c => decide (g.tiles c ≠ TileType.empty ∧
        g.is_edge_tile c.1 c.2.1 c.2.2)) := by
  induction l with
  | nil =>
    intro st ht hd hw hh
    refine ⟨ht, hd, hw, hh, ?_, ?_, fun c _ => rfl, by simp, by simp⟩
    · intro c hc
      exact absurd hc (List.not_mem_nil c)
    · intro c hc
      exact absurd hc (List.not_mem_nil c)
  | cons a rest ih =>
    intro st ht hd hw hh
    obtain ⟨ft, fd, fw, fh⟩ := caveinScanStep_frame st a
    rw [List.foldl_cons]
    obtain ⟨rt, rd, rw', rh, rfalse, rtrue, rkeep, rq, rs⟩ :=
      ih (caveinScanStep st a) (ft.trans ht) (fd.trans hd) (fw.trans hw)
        (fh.trans hh)
    have hedge : st.1.is_edge_tile a.1 a.2.1 a.2.2 ↔
        g.is_edge_tile a.1 a.2.1 a.2.2 :=
      is_edge_tile_congr st.1 g hd hw hh a.1 a.2.1 a.2.2
    refine ⟨rt, rd, rw', rh, ?_, ?_, ?_, ?_, ?_⟩
    · intro c hc hemp
      rcases List.mem_cons.mp hc with rfl | hcr
      · by_cases hcr2 : c ∈ rest
        · exact rfalse c hcr2 hemp
        · rw [rkeep c (Or.inl hcr2), caveinScanStep_cavein st c c,
            if_pos rfl, ht, if_pos hemp]
      · exact rfalse c hcr hemp
    · intro c hc hne hed
      rcases List.mem_cons.mp hc with rfl | hcr
      · by_cases hcr2 : c ∈ rest
        · exact rtrue c hcr2 hne hed
        · rw [rkeep c (Or.inl hcr2), caveinScanStep_cavein st c c,
            if_pos rfl, ht, if_neg hne, if_pos (hedge.mpr hed)]
      · exact rtrue c hcr hne hed
    · intro c hor
      rcases hor with hnm | hA
      · have hca : c ≠ a := fun h => hnm (h ▸ List.mem_cons_self a rest)
        have hcr : c ∉ rest := fun h => hnm (List.mem_cons_of_mem a h)
        rw [rkeep c (Or.inl hcr), caveinScanStep_cavein st a c, if_neg hca]
      · rw [rkeep c (Or.inr hA), caveinScanStep_cavein st a c]
        by_cases hca : c = a
        · subst hca
          rw [if_pos rfl, ht, if_neg hA.1,
            if_neg (fun h => hA.2 (hedge.mp h))]
        · rw [if_neg hca]
    · rw [rq, (caveinScanStep_queue st a).1, List.filter_cons]
      by_cases hp : g.tiles a ≠ TileType.empty ∧
          g.is_edge_tile a.1 a.2.1 a.2.2
      · rw [if_pos (by rw [ht]; exact ⟨hp.1, hedge.mpr hp.2⟩),
          if_pos (decide_eq_true hp), List.append_assoc]
        rfl
      · rw [if_neg (by rw [ht]; intro h; exact hp ⟨h.1, hedge.mp h.2⟩),
          if_neg (by simp only [decide_eq_true_eq]; exact hp)]
    · rw [rs, (caveinScanStep_queue st a).2, List.filter_cons]
      by_cases hp : g.tiles a ≠ TileType.empty ∧
          g.is_edge_tile a.1 a.2.1 a.2.2
      · rw [if_pos (by rw [ht]; exact ⟨hp.1, hedge.mpr hp.2⟩),
          if_pos (decide_eq_true hp), List.append_assoc]
        rfl
      · rw [if_neg (by rw [ht]; intro h; exact hp ⟨h.1, hedge.mp h.2⟩),
          if_neg (by simp only [decide_eq_true_eq]; exact hp)]

/-- Helper: on a fresh map (all support flags None), the initial scan
establishes the BFS invariant. -/
theorem cavein_scan_inv (g : GameMap) (hfresh : ∀ c, g.cavein c = none) :
    BfsInv g g.cavein_scan.1 g.cavein_scan.2.1 g.cavein_scan.2.2 := by
  unfold GameMap.cavein_scan
  obtain ⟨ht, hd, hw, hh, hfalse, htrue, hkeep, hq, hs⟩ :=
    caveinScan_fold g g.allCoords (g, [], []) rfl rfl rfl rfl
  have hchar : ∀ c,
      (g.allCoords.foldl caveinScanStep (g, [], [])).1.cavein c = some true →
      g.in_bounds c.1 c.2.1 c.2.2 ∧ g.tiles c ≠ TileType.empty ∧
        g.is_edge_tile c.1 c.2.1 c.2.2 := by
    intro c hc
    by_cases hin : g.in_bounds c.1 c.2.1 c.2.2
    · by_cases hemp : g.tiles c = TileType.empty
      · rw [hfalse c ((mem_allCoords g c).mpr hin) hemp] at hc
        exact absurd hc (by simp)
      · by_cases hed : g.is_edge_tile c.1 c.2.1 c.2.2
        · exact ⟨hin, hemp, hed⟩
        · rw [hkeep c (Or.inr ⟨hemp, hed⟩), hfresh c] at hc
          exact absurd hc (by simp)
    · rw [hkeep c (Or.inl (fun h => hin ((mem_allCoords g c).mp h))),
        hfresh c] at hc
      exact absurd hc (by simp)
  have hqmem : ∀ c,
      c ∈ (g.allCoords.foldl caveinScanStep (g, [], [])).2.1 ↔
        (g.in_bounds c.1 c.2.1 c.2.2 ∧ g.tiles c ≠ TileType.empty ∧
          g.is_edge_tile c.1 c.2.1 c.2.2) := by
    intro c
    rw [hq, List.nil_append, List.mem_filter, mem_allCoords]
    simp only [decide_eq_true_eq]
  refine ⟨ht, hd, hw, hh, ?_, ?_, ?_, ?_, ?_, ?_, ?_⟩
  · intro c
    constructor
    · intro hc
      by_cases hin : g.in_bounds c.1 c.2.1 c.2.2
      · refine ⟨hin, ?_⟩
        by_cases hemp : g.tiles c = TileType.empty
        · exact hemp
        · by_cases hed : g.is_edge_tile c.1 c.2.1 c.2.2
          · rw [htrue c ((mem_allCoords g c).mpr hin) hemp hed] at hc
            exact absurd hc (by simp)
          · rw [hkeep c (Or.inr ⟨hemp, hed⟩), hfresh c] at hc
            exact absurd hc (by simp)
      · rw [hkeep c (Or.inl (fun h => hin ((mem_allCoords g c).mp h))),
          hfresh c] at hc
        exact absurd hc (by simp)
    · intro ⟨hin, hemp⟩
      exact hfalse c ((mem_allCoords g c).mpr hin) hemp
  · intro c hc
    obtain ⟨hin, hemp, hed⟩ := hchar c hc
    exact ⟨hin, hemp, Reachable.anchor c hin hed hemp⟩
  · intro c hc
    obtain ⟨hin, hemp, hed⟩ := (hqmem c).mp hc
    exact ⟨hin, hemp, Reachable.anchor c hin hed hemp⟩
  · rw [hq, List.nil_append]
    exact (allCoords_nodup g).filter _
  · rw [hs, List.nil_append]
    exact (allCoords_nodup g).filter _
  · intro c
    rw [hq, hs]
  · intro c hc hcq n hadj
    exfalso
    obtain ⟨hin, hemp, hed⟩ := hchar c hc
    exact hcq ((hqmem c).mpr ⟨hin, hemp, hed⟩)

/-- Helper: the measure of the post-scan state is at most three times the
voxel count. -/
theorem cavein_scan_measure (g : GameMap) :
    bfsMeasure g g.cavein_scan.1 g.cavein_scan.2.1 g.cavein_scan.2.2 ≤
      3 * g.allCoords.length := by
  unfold bfsMeasure GameMap.cavein_scan
  obtain ⟨ht, hd, hw, hh, hfalse, htrue, hkeep, hq, hs⟩ :=
    caveinScan_fold g g.allCoords (g, [], []) rfl rfl rfl rfl
  have h1 : (g.allCoords.foldl caveinScanStep (g, [], [])).2.1.length ≤
      g.allCoords.length := by
    rw [hq, List.nil_append]
    exact List.length_filter_le _ _
  have h2 : ((g.allCoords.toFinset).filter
      (fun c => (g.allCoords.foldl caveinScanStep (g, [], [])).1.cavein c =
        none ∧ c ∉ (g.allCoords.foldl caveinScanStep (g, [], [])).2.2)).card ≤
      g.allCoords.length :=
    le_trans (Finset.card_filter_le _ _) (List.toFinset_card_le _)
  omega

/-- Helper: the exposure light loop leaves tiles, flags and dimensions
alone. -/
theorem lightFold_tiles (l : List Int) : ∀ (g2 : GameMap) (x y : Int),
    ((l.foldl (fun gg k => gg.set_light_tile k x y 4) g2)).tiles =
      g2.tiles := by
  induction l with
  | nil => intro g2 x y; rfl
  | cons k rest ih => intro g2 x y; exact ih _ x y

/-- Helper: the exposure light loop leaves the support flags alone. -/
theorem lightFold_cavein (l : List Int) : ∀ (g2 : GameMap) (x y : Int),
    ((l.foldl (fun gg k => gg.set_light_tile k x y 4) g2)).cavein =
      g2.cavein := by
  induction l with
  | nil => intro g2 x y; rfl
  | cons k rest ih => intro g2 x y; exact ih _ x y

/-- Helper: one collapse-pass step, pointwise on tiles and flags. -/
theorem caveinDmgStep_point
    (st : GameMap × List (Coord × Int) × List (Coord × Int)) (c c' : Coord) :
    ((caveinDmgStep st c).1.tiles c' =
      if c' = c ∧ ¬ (st.1.cavein c = some true) ∧
          st.1.tiles c ≠ TileType.empty
      then TileType.empty else st.1.tiles c') ∧
    ((caveinDmgStep st c).1.cavein c' =
      if c' = c ∧ ¬ (st.1.cavein c = some true) ∧
          st.1.tiles c ≠ TileType.empty
      then some false else st.1.cavein c') := by
  obtain ⟨g', dmg, fall⟩ := st
  unfold caveinDmgStep
  by_cases h1 : ¬ (g'.cavein c = some true) ∧ g'.tiles c ≠ TileType.empty <;>
    by_cases h2 : c' = c <;>
      simp [h1, h2, updC, lightFold_tiles, lightFold_cavein, ite_self] <;>
        split <;> simp [updC, h2, lightFold_tiles, lightFold_cavein]

/-- Helper: the collapse fold, pointwise: a voxel in the scanned span whose
flag is not True and whose tile is non-Empty is emptied and flagged False;
every other voxel is untouched. -/
theorem caveinDmg_fold (l : List Coord) :
    ∀ st : GameMap × List (Coord × Int) × List (Coord × Int), l.Nodup →
    (∀ c', c' ∉ l →
      (l.foldl caveinDmgStep st).1.tiles c' = st.1.tiles c' ∧
      (l.foldl caveinDmgStep st).1.cavein c' = st.1.cavein c') ∧
    (∀ c' ∈ l,
      ((l.foldl caveinDmgStep st).1.tiles c' =
        if ¬ (st.1.cavein c' = some true) ∧ st.1.tiles c' ≠ TileType.empty
        then TileType.empty else st.1.tiles c') ∧
      ((l.foldl caveinDmgStep st).1.cavein c' =
        if ¬ (st.1.cavein c' = some true) ∧ st.1.tiles c' ≠ TileType.empty
        then some false else st.1.cavein c')) := by
  induction l with
  | nil =>
    intro st hnd
    exact ⟨fun c' _ => ⟨rfl, rfl⟩, fun c' hc' =>
      absurd hc' (List.not_mem_nil c')⟩
  | cons a rest ih =>
    intro st hnd
    obtain ⟨hna, hndr⟩ := List.nodup_cons.mp hnd
    obtain ⟨ihf, ihv⟩ := ih (caveinDmgStep st a) hndr
    rw [List.foldl_cons]
    constructor
    · intro c' hc'
      have hca1 : c' ≠ a := fun h => hc' (h ▸ List.mem_cons_self a rest)
      have hca2 : c' ∉ rest := fun h => hc' (List.mem_cons_of_mem a h)
      obtain ⟨f1, f2⟩ := ihf c' hca2
      obtain ⟨p1, p2⟩ := caveinDmgStep_point st a c'
      rw [f1, f2, p1, p2, if_neg (fun h => hca1 h.1),
        if_neg (fun h => hca1 h.1)]
      exact ⟨rfl, rfl⟩
    · intro c' hc'
      rcases List.mem_cons.mp hc' with rfl | hcr
      · obtain ⟨f1, f2⟩ := ihf c' hna
        obtain ⟨p1, p2⟩ := caveinDmgStep_point st c' c'
        rw [f1, f2, p1, p2]
        by_cases hcond : ¬ (st.1.cavein c' = some true) ∧
            st.1.tiles c' ≠ TileType.empty
        · have hpos : c' = c' ∧ ¬ (st.1.cavein c' = some true) ∧
              st.1.tiles c' ≠ TileType.empty := ⟨rfl, hcond⟩
          rw [if_pos hcond, if_pos hcond, if_pos hpos, if_pos hpos]
          exact ⟨rfl, rfl⟩
        · have hneg : ¬ (c' = c' ∧ ¬ (st.1.cavein c' = some true) ∧
              st.1.tiles c' ≠ TileType.empty) := fun h => hcond h.2
          rw [if_neg hcond, if_neg hcond, if_neg hneg, if_neg hneg]
          exact ⟨rfl, rfl⟩
      · have hca : c' ≠ a := fun h => hna (h ▸ hcr)
        have e1 : (caveinDmgStep st a).1.tiles c' = st.1.tiles c' := by
          rw [(caveinDmgStep_point st a c').1, if_neg (fun h => hca h.1)]
        have e2 : (caveinDmgStep st a).1.cavein c' = st.1.cavein c' := by
          rw [(caveinDmgStep_point st a c').2, if_neg (fun h => hca h.1)]
        obtain ⟨v1, v2⟩ := ihv c' hcr
        rw [v1, v2, e1, e2]
        exact ⟨rfl, rfl⟩

/-- Helper: the collapse pass on the whole grid, pointwise. -/
theorem get_cavein_dmg_tiles_spec (g : GameMap) (c : Coord) :
    (g.get_cavein_dmg_tiles.1.tiles c =
      if g.in_bounds c.1 c.2.1 c.2.2 ∧ ¬ (g.cavein c = some true) ∧
          g.tiles c ≠ TileType.empty
      then TileType.empty else g.tiles c) ∧
    (g.get_cavein_dmg_tiles.1.cavein c =
      if g.in_bounds c.1 c.2.1 c.2.2 ∧ ¬ (g.cavein c = some true) ∧
          g.tiles c ≠ TileType.empty
      then some false else g.cavein c) := by
  unfold GameMap.get_cavein_dmg_tiles
  obtain ⟨hfr, hval⟩ := caveinDmg_fold g.allCoords (g, [], [])
    (allCoords_nodup g)
  by_cases hin : g.in_bounds c.1 c.2.1 c.2.2
  · obtain ⟨v1, v2⟩ := hval c ((mem_allCoords g c).mpr hin)
    rw [v1, v2]
    by_cases hcond : ¬ (g.cavein c = some true) ∧
        g.tiles c ≠ TileType.empty
    · rw [if_pos hcond, if_pos hcond, if_pos ⟨hin, hcond⟩,
        if_pos ⟨hin, hcond⟩]
      exact ⟨rfl, rfl⟩
    · rw [if_neg hcond, if_neg hcond, if_neg (fun h => hcond h.2),
        if_neg (fun h => hcond h.2)]
      exact ⟨rfl, rfl⟩
  · obtain ⟨f1, f2⟩ := hfr c (fun h => hin ((mem_allCoords g c).mp h))
    rw [f1, f2, if_neg (fun h => hin h.1), if_neg (fun h => hin h.1)]
    exact ⟨rfl, rfl⟩

/-- Helper: the damage application only touches actors and the log. -/
theorem apply_cavein_dmg_frame (g : GameMap)
    (dmg fall : List (Coord × Int)) :
    (g.apply_cavein_dmg dmg fall).tiles = g.tiles ∧
    (g.apply_cavein_dmg dmg fall).cavein = g.cavein :=
  ⟨rfl, rfl⟩

/-- Helper: the scan queue holds exactly the in-bounds non-Empty boundary
voxels. -/
theorem cavein_scan_queue_mem (g : GameMap) (c : Coord) :
    c ∈ g.cavein_scan.2.1 ↔
      (g.in_bounds c.1 c.2.1 c.2.2 ∧ g.tiles c ≠ TileType.empty ∧
        g.is_edge_tile c.1 c.2.1 c.2.2) := by
  unfold GameMap.cavein_scan
  obtain ⟨ht, hd, hw, hh, hfalse, htrue, hkeep, hq, hs⟩ :=
    caveinScan_fold g g.allCoords (g, [], []) rfl rfl rfl rfl
  rw [hq, List.nil_append, List.mem_filter, mem_allCoords]
  simp only [decide_eq_true_eq]

/-- Claim C1 (corrected), amended theorem: immediately after initialization
the support invariant does hold.  On a fresh map (all support flags still
None, as in GameMap.__init__) and with enough fuel for the flood,
cavein_init flags an in-bounds voxel True iff it is non-Empty and reachable
from a boundary voxel through the support adjacency of the starting grid,
and its collapse pass empties exactly the voxels such a full flood finds
unreachable (the tile survives non-Empty iff it was non-Empty and
reachable).  The original claim extends this equivalence to every later
remove operation via the dependency-graph cascade, which the counterexample
refutes. -/
theorem cavein_init_sound_complete (g : GameMap) (fuel : Nat)
    (hfresh : ∀ c, g.cavein c = none)
    (hfuel : 3 * g.allCoords.length ≤ fuel) (c : Coord)
    (hc : g.in_bounds c.1 c.2.1 c.2.2) :
    ((g.cavein_init fuel).cavein c = some true ↔
      (g.tiles c ≠ TileType.empty ∧ Reachable g c)) ∧
    ((g.cavein_init fuel).tiles c ≠ TileType.empty ↔
      (g.tiles c ≠ TileType.empty ∧ Reachable g c)) := by
  obtain ⟨hout, hmono, hqtrue⟩ := cavein_bfs_correct g fuel
    g.cavein_scan.1 g.cavein_scan.2.1 g.cavein_scan.2.2
    (cavein_scan_inv g hfresh)
    (le_trans (cavein_scan_measure g) hfuel)
  set g2 := GameMap.cavein_bfs fuel g.cavein_scan.1 g.cavein_scan.2.1
    g.cavein_scan.2.2 with hg2def
  have hival : g.cavein_init fuel =
      (g2.get_cavein_dmg_tiles.1).apply_cavein_dmg
        g2.get_cavein_dmg_tiles.2.1 g2.get_cavein_dmg_tiles.2.2 := rfl
  rw [hival]
  obtain ⟨hT, hC⟩ := apply_cavein_dmg_frame g2.get_cavein_dmg_tiles.1
    g2.get_cavein_dmg_tiles.2.1 g2.get_cavein_dmg_tiles.2.2
  rw [hT, hC]
  obtain ⟨hdT, hdC⟩ := get_cavein_dmg_tiles_spec g2 c
  rw [hdT, hdC]
  have htg2 : g2.tiles = g.tiles := hout.tiles_eq
  have hcomp : ∀ d, Reachable g d → g2.cavein d = some true := by
    intro d hr
    induction hr with
    | anchor d hin hed hne =>
      exact hqtrue d ((cavein_scan_queue_mem g d).mpr ⟨hin, hne, hed⟩)
    | step t n ht hadj ih => exact hout.closed t ih n hadj
  by_cases hg2c : g2.cavein c = some true
  · have hsound := hout.true_sound c hg2c
    have hcond : ¬ (g2.in_bounds c.1 c.2.1 c.2.2 ∧
        ¬ (g2.cavein c = some true) ∧ g2.tiles c ≠ TileType.empty) :=
      fun h => h.2.1 hg2c
    rw [if_neg hcond, if_neg hcond]
    constructor
    · constructor
      · intro _
        exact ⟨hsound.2.1, hsound.2.2⟩
      · intro _
        exact hg2c
    · rw [htg2]
      constructor
      · intro hne
        exact ⟨hne, hsound.2.2⟩
      · intro h
        exact h.1
  · by_cases hemp : g.tiles c = TileType.empty
    · have hg2t : g2.tiles c = TileType.empty := by
        rw [htg2]
        exact hemp
      have hcond : ¬ (g2.in_bounds c.1 c.2.1 c.2.2 ∧
          ¬ (g2.cavein c = some true) ∧ g2.tiles c ≠ TileType.empty) :=
        fun h => h.2.2 hg2t
      rw [if_neg hcond, if_neg hcond]
      constructor
      · constructor
        · intro h
          exact absurd h hg2c
        · intro h
          exact absurd hemp h.1
      · constructor
        · intro h
          exact absurd hg2t h
        · intro h
          exact absurd hemp h.1
    · have hinb2 : g2.in_bounds c.1 c.2.1 c.2.2 :=
        (in_bounds_congr g2 g hout.depth_eq hout.width_eq hout.height_eq
          c.1 c.2.1 c.2.2).mpr hc
      have hcond : g2.in_bounds c.1 c.2.1 c.2.2 ∧
          ¬ (g2.cavein c = some true) ∧ g2.tiles c ≠ TileType.empty :=
        ⟨hinb2, hg2c, by rw [htg2]; exact hemp⟩
      rw [if_pos hcond, if_pos hcond]
      constructor
      · constructor
        · intro h
          exact absurd h (by simp)
        · intro h
          exact absurd (hcomp c h.2) hg2c
      · constructor
        · intro h
          exact absurd rfl h
        · intro h
          exact absurd (hcomp c h.2) hg2c

/-- Witness for cavein_init_sound_complete: demoMap is fresh, 81 units of
fuel cover its 27 voxels, and the equivalence is instantiated at the wall
voxel (2,1,1). -/
theorem cavein_init_sound_complete_witness :
    (∀ c, demoMap.cavein c = none) ∧
    3 * demoMap.allCoords.length ≤ 81 ∧
    demoMap.in_bounds (2 : Int) 1 1 ∧
    (((demoMap.cavein_init 81).cavein (2, 1, 1) = some true ↔
      (demoMap.tiles (2, 1, 1) ≠ TileType.empty ∧
        Reachable demoMap (2, 1, 1))) ∧
    ((demoMap.cavein_init 81).tiles (2, 1, 1) ≠ TileType.empty ↔
      (demoMap.tiles (2, 1, 1) ≠ TileType.empty ∧
        Reachable demoMap (2, 1, 1)))) :=
  ⟨fun c => rfl, by decide, by decide,
    cavein_init_sound_complete demoMap 81 (fun c => rfl) (by decide)
      (2, 1, 1) (by decide)⟩

/-- Claim C1 (corrected), counterexample: on cexMap the dependency-graph
cascade of remove_tile over-collapses.  After initialization, removing the
interior wall (1,1,2) collapses (1,2,2) - its tile is emptied and its
support flag cleared - even though in the grid with only (1,1,2) removed
the voxel (1,2,2) is still non-Empty and still reachable from the edge
anchor (1,2,0) through (1,2,1): the recorded dependency set of (1,2,2)
only ever captured the path through (1,1,2). -/
theorem remove_tile_overcollapses :
    ((cexMap.cavein_init 200).remove_tile (1, 1, 2) 100).tiles (1, 2, 2) =
      TileType.empty ∧
    ((cexMap.cavein_init 200).remove_tile (1, 1, 2) 100).cavein (1, 2, 2) =
      some false ∧
    cexMapRemoved.tiles (1, 2, 2) ≠ TileType.empty ∧
    Reachable cexMapRemoved (1, 2, 2) := by
  refine ⟨by decide, by decide, by decide, ?_⟩
  refine Reachable.step (1, 2, 1) (1, 2, 2) ?_ ?_
  · refine Reachable.step (1, 2, 0) (1, 2, 1) ?_ ?_
    · exact Reachable.anchor (1, 2, 0) (by decide) (by decide) (by decide)
    · show supAdj cexMapRemoved (1, 2, 0) (1, 2, 1)
      unfold supAdj
      refine ⟨by decide, by decide, ?_⟩
      right; right; right; left
      decide
  · show supAdj cexMapRemoved (1, 2, 1) (1, 2, 2)
    unfold supAdj
    refine ⟨by decide, by decide, ?_⟩
    right; right; right; left
    decide

end DfsRpg
